import Mathlib

/-!
Verification of the AGAGE archive data-harmonization core (`agage_archive`).

This file gives a shallow embedding, in Lean, of the parts of the repository
that the checked properties are about:

* `drop_duplicates` (io.py): instrument-aware duplicate-timestamp resolution;
* the tail of `read_nc` (io.py): sort / deduplicate / dropna normalization;
* `combine_datasets` and `combine_baseline` (io.py): the per-species/site
  combination pipeline with its empty-slice and scale-mismatch errors;
* `run_timestamp_checks` and the per-unit loops of `run.py`;
* `define_instrument_number` / `get_instrument_number` (definitions.py).

A dataset is modelled as a list of rows.  Each row carries the time
coordinate, the concentration (`mf`, with `none` standing for NaN) and the
numeric `instrument_type` code; attributes that the claims mention
(calibration scale, comments) are carried alongside where needed.  Fallible
code is modelled with `Except`.
-/

open List

set_option maxHeartbeats 1000000

/-- One observation row of a time-indexed dataset: the `time` coordinate, the
concentration `mf` (`none` models NaN) and the `instrument_type` code, i.e.
the variables that `drop_duplicates` in io.py inspects. -/
structure Row where
  time : Int
  mf : Option ℚ
  instrument_type : Int
deriving DecidableEq, Repr

/-- First-seen ordering of instrument-type codes, mirroring the loop in
`drop_duplicates` (io.py lines 74-77): `for instrument in
ds.instrument_type.values: if instrument not in instrument_types:
instrument_types.append(instrument)`. -/
def firstSeenInstruments (ds : List Row) : List Int :=
  ds.foldl (fun acc r => if r.instrument_type ∈ acc then acc else acc ++ [r.instrument_type]) []

/-- Python `min` over a nonempty list of naturals (0 on the empty list, which
the code never hits). -/
def minNat : List Nat → Nat
  | [] => 0
  | x :: xs => xs.foldl min x

/-- The rows of `ds` carrying timestamp `t`, together with their positional
index: the Python code materializes the index as the helper variable
`ds["i"] = arange(len(ds.time))` and selects `ds.sel(time=timestamp)`. -/
def rowsAt (ds : List Row) (t : Int) : List (Nat × Row) :=
  ds.enum.filter (fun p => decide (p.2.time = t))

/-- The instrument kept when several non-NaN concentrations collide:
`instrument_types[min([instrument_types.index(i) for i in
instruments_not_nan])]` of io.py line 108, applied to the non-NaN colliding
rows. -/
def keepInstrument (instOrder : List Int) (dup : List (Nat × Row)) : Int :=
  instOrder.getD
    (minNat (((dup.filter (fun p => !p.2.mf.isNone)).map
      (fun p => p.2.instrument_type)).map (fun i => instOrder.indexOf i))) 0

/-- Indices kept at one duplicated timestamp, mirroring the body of the
`for timestamp in duplicated_timestamps` loop of `drop_duplicates`
(io.py lines 87-111):

* `i_nan` are the colliding rows whose `mf` is NaN, `i_not_nan` the rest;
* if all collide as NaN, all but the first are dropped;
* otherwise every NaN row is dropped;
* if more than one non-NaN value remains, the instrument whose code appears
  earliest in the first-seen instrument ordering is selected
  (`instrument_types[min(instrument_types.index(...))]`) and the first row of
  that instrument is kept, the others dropped. -/
def keptIndices (instOrder : List Int) (dup : List (Nat × Row)) : List Nat :=
  if (dup.filter (fun p => !p.2.mf.isNone)).length = 0 then
    ((dup.filter (fun p => p.2.mf.isNone)).take 1).map Prod.fst
  else if (dup.filter (fun p => !p.2.mf.isNone)).length = 1 then
    (dup.filter (fun p => !p.2.mf.isNone)).map Prod.fst
  else
    (((dup.filter (fun p => !p.2.mf.isNone)).filter
      (fun p => decide (p.2.instrument_type = keepInstrument instOrder dup))).take 1).map
      Prod.fst

/-- Whether the indexed row `p` of `ds` survives `drop_duplicates`: rows at a
non-repeated timestamp are untouched (the loop only visits duplicated
timestamps); at a repeated timestamp only the indices in `keptIndices`
survive the final `dropna` on the `drop` marker column. -/
def keepRow (ds : List Row) (p : Nat × Row) : Bool :=
  if (rowsAt ds p.2.time).length ≤ 1 then true
  else decide (p.1 ∈ keptIndices (firstSeenInstruments ds) (rowsAt ds p.2.time))

/-- The guard `len(ds.time) == len(ds.time.drop_duplicates(dim="time"))` of
io.py line 70: true exactly when no timestamp repeats. -/
def timesNodup (ds : List Row) : Bool :=
  decide ((ds.map Row.time).Nodup)

/-- `drop_duplicates` of io.py lines 58-118: return the dataset unchanged if
no timestamp repeats, otherwise keep exactly the rows selected by the
per-timestamp resolution, in their original order. -/
def dropDuplicates (ds : List Row) : List Row :=
  if timesNodup ds then ds
  else (ds.enum.filter (fun p => keepRow ds p)).map Prod.snd

/-- The concentration value 5.3 of the overlap scenario in the spec, given as
a ratio so that kernel evaluation can decide equalities on it. -/
def mf53 : ℚ := ⟨53, 10, by norm_num, by norm_num⟩

example : mf53 = 53 / 10 := by
  norm_num [mf53, Rat.mk'_eq_divInt, Rat.divInt_eq_div]

example :
    dropDuplicates [⟨1, none, 0⟩, ⟨1, some mf53, 1⟩] = [⟨1, some mf53, 1⟩] := by
  decide

example :
    dropDuplicates [⟨1, some 5, 0⟩, ⟨1, some 6, 1⟩] = [⟨1, some 5, 0⟩] := by
  decide

example :
    dropDuplicates [⟨1, some 6, 1⟩, ⟨1, some 5, 0⟩] = [⟨1, some 6, 1⟩] := by
  decide

example :
    dropDuplicates [⟨1, none, 0⟩, ⟨1, none, 1⟩, ⟨2, some 3, 1⟩] =
      [⟨1, none, 0⟩, ⟨2, some 3, 1⟩] := by
  decide

/-! ### Supporting lemmas for `dropDuplicates` -/

lemma mem_rowsAt_time {ds : List Row} {t : Int} {p : Nat × Row}
    (hp : p ∈ rowsAt ds t) : p.2.time = t := by
  have := of_mem_filter hp
  simpa using this

lemma rowsAt_fst_nodup (ds : List Row) (t : Int) :
    ((rowsAt ds t).map Prod.fst).Nodup := by
  have h1 : rowsAt ds t <+ ds.enum := filter_sublist _
  have h2 : (rowsAt ds t).map Prod.fst <+ ds.enum.map Prod.fst := h1.map _
  rw [enum_map_fst] at h2
  exact (nodup_range _).sublist h2

lemma rowsAt_map_snd (ds : List Row) (t : Int) :
    (rowsAt ds t).map Prod.snd = ds.filter (fun r => decide (r.time = t)) := by
  conv_rhs => rw [← enum_map_snd ds, filter_map]
  rfl


lemma exists_enum_of_mem {ds : List Row} {r : Row} (h : r ∈ ds) :
    ∃ p ∈ ds.enum, p.2 = r := by
  rw [← enum_map_snd ds] at h
  exact mem_map.1 h

lemma foldl_min_le_init : ∀ (xs : List Nat) (x : Nat), xs.foldl min x ≤ x
  | [], _ => le_refl _
  | y :: ys, x => le_trans (foldl_min_le_init ys (min x y)) (Nat.min_le_left x y)

lemma foldl_min_le : ∀ (xs : List Nat) (x a : Nat), a ∈ xs → xs.foldl min x ≤ a
  | [], _, _, h => absurd h (not_mem_nil _)
  | y :: ys, x, a, h => by
    rcases mem_cons.1 h with rfl | h'
    · exact le_trans (foldl_min_le_init ys (min x a)) (Nat.min_le_right x a)
    · exact foldl_min_le ys (min x y) a h'

lemma foldl_min_mem : ∀ (xs : List Nat) (x : Nat), xs.foldl min x = x ∨ xs.foldl min x ∈ xs
  | [], _ => Or.inl rfl
  | y :: ys, x => by
    rcases foldl_min_mem ys (min x y) with h | h
    · rcases Nat.le_total x y with hxy | hxy
      · rw [foldl_cons, h, Nat.min_eq_left hxy]
        exact Or.inl rfl
      · rw [foldl_cons, h, Nat.min_eq_right hxy]
        exact Or.inr (mem_cons_self _ _)
    · exact Or.inr (mem_cons_of_mem _ h)

lemma minNat_mem {l : List Nat} (h : l ≠ []) : minNat l ∈ l := by
  match l with
  | [] => exact absurd rfl h
  | x :: xs =>
    rcases foldl_min_mem xs x with h' | h'
    · rw [minNat, h']
      exact mem_cons_self _ _
    · exact mem_cons_of_mem _ h'

lemma minNat_le {l : List Nat} {a : Nat} (h : a ∈ l) : minNat l ≤ a := by
  match l with
  | x :: xs =>
    rcases mem_cons.1 h with rfl | h'
    · exact foldl_min_le_init xs a
    · exact foldl_min_le xs x a h'

lemma mem_foldl_instrument (l : List Row) :
    ∀ (acc : List Int) (x : Int), x ∈ acc →
      x ∈ l.foldl (fun acc r =>
        if r.instrument_type ∈ acc then acc else acc ++ [r.instrument_type]) acc := by
  induction l with
  | nil => intro acc x hx; simpa using hx
  | cons r rest ih =>
    intro acc x hx
    rw [foldl_cons]
    apply ih
    by_cases hr : r.instrument_type ∈ acc
    · simpa [hr] using hx
    · simp only [hr, if_false]
      exact mem_append_left _ hx

lemma mem_foldl_instrument_of_mem (l : List Row) :
    ∀ (acc : List Int) (r : Row), r ∈ l →
      r.instrument_type ∈ l.foldl (fun acc r =>
        if r.instrument_type ∈ acc then acc else acc ++ [r.instrument_type]) acc := by
  induction l with
  | nil => intro acc r hr; cases hr
  | cons a rest ih =>
    intro acc r hr
    rw [foldl_cons]
    rcases mem_cons.1 hr with rfl | hr'
    · apply mem_foldl_instrument
      by_cases ha : r.instrument_type ∈ acc
      · simp [ha]
      · simp [ha]
    · exact ih _ r hr'

lemma mem_firstSeenInstruments {ds : List Row} {r : Row} (h : r ∈ ds) :
    r.instrument_type ∈ firstSeenInstruments ds :=
  mem_foldl_instrument_of_mem ds [] r h

lemma getD_indexOf {l : List Int} {a : Int} (h : a ∈ l) :
    l.getD (l.indexOf a) 0 = a := by
  induction l with
  | nil => cases h
  | cons b l ih =>
    by_cases hb : b = a
    · subst hb
      simp [indexOf_cons_self]
    · rcases mem_cons.1 h with rfl | h'
      · exact absurd rfl hb
      · have : (b :: l).indexOf a = l.indexOf a + 1 := indexOf_cons_ne _ hb
        rw [this]
        simpa using ih h'

lemma filter_fst_eq_of_nodup :
    ∀ {l : List (Nat × Row)}, (l.map Prod.fst).Nodup → ∀ {q : Nat × Row}, q ∈ l →
      l.filter (fun p => decide (p.1 = q.1)) = [q]
  | [], _, q, hq => absurd hq (not_mem_nil _)
  | a :: l, h, q, hq => by
    rw [map_cons, nodup_cons] at h
    rcases mem_cons.1 hq with rfl | hq'
    · rw [filter_cons_of_pos (by simp)]
      have : l.filter (fun p => decide (p.1 = q.1)) = [] := by
        rw [filter_eq_nil_iff]
        intro p hp
        simp only [decide_eq_true_eq]
        intro he
        exact h.1 (he ▸ mem_map_of_mem Prod.fst hp)
      rw [this]
    · have hne : a.1 ≠ q.1 := fun e => h.1 (e ▸ mem_map_of_mem Prod.fst hq')
      rw [filter_cons_of_neg (by simpa using hne)]
      exact filter_fst_eq_of_nodup h.2 hq'

lemma filter_time_le_one_of_nodup {ds : List Row}
    (h : (ds.map Row.time).Nodup) (t : Int) :
    (ds.filter (fun r => decide (r.time = t))).length ≤ 1 := by
  induction ds with
  | nil => simp
  | cons r rest ih =>
    rw [map_cons, nodup_cons] at h
    by_cases ht : r.time = t
    · rw [filter_cons_of_pos (by simpa using ht)]
      have hrest : rest.filter (fun r => decide (r.time = t)) = [] := by
        rw [filter_eq_nil_iff]
        intro x hx
        simp only [decide_eq_true_eq]
        intro he
        exact h.1 (ht ▸ he ▸ mem_map_of_mem Row.time hx)
      simp [hrest]
    · rw [filter_cons_of_neg (by simpa using ht)]
      exact ih h.2

lemma nodup_map_time_of_filter_le_one {ds : List Row}
    (h : ∀ t, (ds.filter (fun r => decide (r.time = t))).length ≤ 1) :
    (ds.map Row.time).Nodup := by
  induction ds with
  | nil => simp
  | cons r rest ih =>
    rw [map_cons, nodup_cons]
    constructor
    · intro hmem
      rcases mem_map.1 hmem with ⟨x, hx, hxt⟩
      have := h r.time
      rw [filter_cons_of_pos (by simp)] at this
      have hrest : x ∈ rest.filter (fun y => decide (y.time = r.time)) :=
        mem_filter.2 ⟨hx, by simpa using hxt⟩
      have hpos : 0 < (rest.filter (fun y => decide (y.time = r.time))).length :=
        length_pos.2 (ne_nil_of_mem hrest)
      simp only [length_cons] at this
      omega
    · apply ih
      intro t
      have := h t
      by_cases ht : r.time = t
      · rw [filter_cons_of_pos (by simpa using ht)] at this
        simp only [length_cons] at this
        omega
      · rwa [filter_cons_of_neg (by simpa using ht)] at this

lemma filter_mem_keptIndices_eq {instOrder : List Int} {dup : List (Nat × Row)}
    (hfst : (dup.map Prod.fst).Nodup) {q : Nat × Row} (hq : q ∈ dup)
    (hk : keptIndices instOrder dup = [q.1]) :
    dup.filter (fun p => decide (p.1 ∈ keptIndices instOrder dup)) = [q] := by
  rw [hk]
  have hcongr : dup.filter (fun p => decide (p.1 ∈ [q.1])) =
      dup.filter (fun p => decide (p.1 = q.1)) := by
    apply filter_congr
    intro p _
    simp
  rw [hcongr]
  exact filter_fst_eq_of_nodup hfst hq

lemma keptIndices_spec {instOrder : List Int} {dup : List (Nat × Row)}
    (hne : dup ≠ [])
    (hfst : (dup.map Prod.fst).Nodup)
    (hinst : ∀ p ∈ dup, p.2.instrument_type ∈ instOrder) :
    ∃ q ∈ dup,
      keptIndices instOrder dup = [q.1] ∧
      dup.filter (fun p => decide (p.1 ∈ keptIndices instOrder dup)) = [q] ∧
      ((∃ p ∈ dup, p.2.mf ≠ none) → q.2.mf ≠ none) ∧
      (2 ≤ (dup.filter (fun p => !p.2.mf.isNone)).length →
        ∀ p ∈ dup, p.2.mf ≠ none →
          instOrder.indexOf q.2.instrument_type ≤ instOrder.indexOf p.2.instrument_type) := by
  by_cases h0 : (dup.filter (fun p => !p.2.mf.isNone)).length = 0
  · -- all colliding rows have NaN concentration: keep the first
    have hall : ∀ p ∈ dup, p.2.mf = none := by
      intro p hp
      by_contra hne'
      have hpn : p ∈ dup.filter (fun p => !p.2.mf.isNone) :=
        mem_filter.2 ⟨hp, by simpa [Option.isSome_iff_ne_none] using hne'⟩
      have := length_pos.2 (ne_nil_of_mem hpn)
      omega
    have hnansall : dup.filter (fun p => p.2.mf.isNone) = dup := by
      rw [filter_eq_self]
      intro p hp
      simp [Option.isNone_iff_eq_none, hall p hp]
    obtain ⟨a, l, rfl⟩ := exists_cons_of_ne_nil hne
    have hk : keptIndices instOrder (a :: l) = [a.1] := by
      rw [keptIndices, if_pos h0, hnansall]
      simp
    refine ⟨a, mem_cons_self _ _, hk, filter_mem_keptIndices_eq hfst (mem_cons_self _ _) hk,
      ?_, ?_⟩
    · rintro ⟨p, hp, hpmf⟩
      exact absurd (hall p hp) hpmf
    · intro h2
      omega
  · by_cases h1 : (dup.filter (fun p => !p.2.mf.isNone)).length = 1
    · -- exactly one non-NaN row survives
      obtain ⟨q, hq⟩ := length_eq_one.1 h1
      have hqnn : q ∈ dup.filter (fun p => !p.2.mf.isNone) := hq ▸ mem_cons_self _ _
      have hqdup : q ∈ dup := mem_of_mem_filter hqnn
      have hqmf : q.2.mf ≠ none := by
        have := of_mem_filter hqnn
        simpa [Option.isSome_iff_ne_none] using this
      have hk : keptIndices instOrder dup = [q.1] := by
        rw [keptIndices, if_neg h0, if_pos h1, hq]
        rfl
      refine ⟨q, hqdup, hk, filter_mem_keptIndices_eq hfst hqdup hk, fun _ => hqmf, ?_⟩
      intro h2
      omega
    · -- at least two non-NaN rows: instrument-order tie-break
      have hlen2 : 2 ≤ (dup.filter (fun p => !p.2.mf.isNone)).length := by omega
      have hnnne : dup.filter (fun p => !p.2.mf.isNone) ≠ [] := by
        intro h
        rw [h] at hlen2
        simp at hlen2
      have hidxsne :
          (((dup.filter (fun p => !p.2.mf.isNone)).map (fun p => p.2.instrument_type)).map
            (fun i => instOrder.indexOf i)) ≠ [] := by
        simpa using hnnne
      obtain ⟨x₀, hx₀, hx₀eq⟩ := mem_map.1 (minNat_mem hidxsne)
      obtain ⟨p₀, hp₀, hp₀eq⟩ := mem_map.1 hx₀
      have hx₀mem : x₀ ∈ instOrder := hp₀eq ▸ hinst p₀ (mem_of_mem_filter hp₀)
      have hkeep : keepInstrument instOrder dup = x₀ := by
        rw [keepInstrument, ← hx₀eq]
        exact getD_indexOf hx₀mem
      have hp₀f : p₀ ∈ (dup.filter (fun p => !p.2.mf.isNone)).filter
          (fun p => decide (p.2.instrument_type = keepInstrument instOrder dup)) :=
        mem_filter.2 ⟨hp₀, by simp [hkeep, hp₀eq]⟩
      obtain ⟨q, rest, hqrest⟩ := exists_cons_of_ne_nil (ne_nil_of_mem hp₀f)
      have hqf : q ∈ (dup.filter (fun p => !p.2.mf.isNone)).filter
          (fun p => decide (p.2.instrument_type = keepInstrument instOrder dup)) :=
        hqrest ▸ mem_cons_self _ _
      have hqnn : q ∈ dup.filter (fun p => !p.2.mf.isNone) := mem_of_mem_filter hqf
      have hqdup : q ∈ dup := mem_of_mem_filter hqnn
      have hqinst : q.2.instrument_type = x₀ := by
        have := of_mem_filter hqf
        simpa [hkeep] using this
      have hqmf : q.2.mf ≠ none := by
        have := of_mem_filter hqnn
        simpa [Option.isSome_iff_ne_none] using this
      have hk : keptIndices instOrder dup = [q.1] := by
        rw [keptIndices, if_neg h0, if_neg h1, hqrest]
        rfl
      refine ⟨q, hqdup, hk, filter_mem_keptIndices_eq hfst hqdup hk, fun _ => hqmf, ?_⟩
      intro _ p hp hpmf
      have hpnn : p ∈ dup.filter (fun p => !p.2.mf.isNone) :=
        mem_filter.2 ⟨hp, by simpa [Option.isSome_iff_ne_none] using hpmf⟩
      have hpidx : instOrder.indexOf p.2.instrument_type ∈
          (((dup.filter (fun p => !p.2.mf.isNone)).map (fun p => p.2.instrument_type)).map
            (fun i => instOrder.indexOf i)) :=
        mem_map_of_mem _ (mem_map_of_mem _ hpnn)
      rw [hqinst, hx₀eq]
      exact minNat_le hpidx

lemma dropDuplicates_filter_eq (ds : List Row) (t : Int) (hnd : timesNodup ds = false) :
    (dropDuplicates ds).filter (fun r => decide (r.time = t)) =
      ((rowsAt ds t).filter (fun p => keepRow ds p)).map Prod.snd := by
  rw [dropDuplicates, if_neg (by simp [hnd])]
  rw [filter_map, rowsAt, filter_filter, filter_filter]
  congr 1
  apply filter_congr
  intro p _
  exact Bool.and_comm _ _

lemma keepRow_of_mem_rowsAt {ds : List Row} {t : Int} {p : Nat × Row}
    (hp : p ∈ rowsAt ds t) (h2 : 2 ≤ (rowsAt ds t).length) :
    keepRow ds p = decide (p.1 ∈ keptIndices (firstSeenInstruments ds) (rowsAt ds t)) := by
  rw [keepRow, mem_rowsAt_time hp, if_neg (by omega)]

lemma rowsAt_filter_keep {ds : List Row} {t : Int} (hnd : timesNodup ds = false)
    (h2 : 2 ≤ (rowsAt ds t).length) :
    ∃ q ∈ rowsAt ds t,
      (dropDuplicates ds).filter (fun r => decide (r.time = t)) = [q.2] ∧
      ((∃ p ∈ rowsAt ds t, p.2.mf ≠ none) → q.2.mf ≠ none) ∧
      (2 ≤ ((rowsAt ds t).filter (fun p => !p.2.mf.isNone)).length →
        ∀ p ∈ rowsAt ds t, p.2.mf ≠ none →
          (firstSeenInstruments ds).indexOf q.2.instrument_type ≤
            (firstSeenInstruments ds).indexOf p.2.instrument_type) := by
  have hne : rowsAt ds t ≠ [] := by
    intro h
    rw [h] at h2
    simp at h2
  have hinst : ∀ p ∈ rowsAt ds t, p.2.instrument_type ∈ firstSeenInstruments ds :=
    fun p hp => mem_firstSeenInstruments (List.snd_mem_of_mem_enum (mem_of_mem_filter hp))
  obtain ⟨q, hq, hk, hfil, hprefer, hmin⟩ :=
    keptIndices_spec hne (rowsAt_fst_nodup ds t) hinst
  refine ⟨q, hq, ?_, hprefer, hmin⟩
  rw [dropDuplicates_filter_eq ds t hnd]
  have hcongr : (rowsAt ds t).filter (fun p => keepRow ds p) =
      (rowsAt ds t).filter
        (fun p => decide (p.1 ∈ keptIndices (firstSeenInstruments ds) (rowsAt ds t))) := by
    apply filter_congr
    intro p hp
    exact keepRow_of_mem_rowsAt hp h2
  rw [hcongr, hfil]
  rfl

lemma length_filter_time_dropDuplicates (ds : List Row) (t : Int) :
    ((dropDuplicates ds).filter (fun r => decide (r.time = t))).length =
      min ((ds.filter (fun r => decide (r.time = t))).length) 1 := by
  by_cases hnd : timesNodup ds
  · rw [dropDuplicates, if_pos hnd]
    have hnodup : (ds.map Row.time).Nodup := of_decide_eq_true hnd
    have := filter_time_le_one_of_nodup hnodup t
    omega
  · have hnd' : timesNodup ds = false := by simpa using hnd
    have hlen : (rowsAt ds t).length = (ds.filter (fun r => decide (r.time = t))).length := by
      rw [← rowsAt_map_snd, length_map]
    by_cases h0 : (rowsAt ds t).length = 0
    · have hempty : rowsAt ds t = [] := length_eq_zero.1 h0
      rw [dropDuplicates_filter_eq ds t hnd', hempty]
      simp
      omega
    · by_cases h1 : (rowsAt ds t).length = 1
      · obtain ⟨p, hp⟩ := length_eq_one.1 h1
        have hpmem : p ∈ rowsAt ds t := hp ▸ mem_cons_self _ _
        have hkeep : keepRow ds p = true := by
          rw [keepRow, mem_rowsAt_time hpmem, if_pos (by omega)]
        rw [dropDuplicates_filter_eq ds t hnd', hp]
        rw [filter_cons_of_pos hkeep]
        simp
        omega
      · have h2 : 2 ≤ (rowsAt ds t).length := by omega
        obtain ⟨q, hq, heq, -, -⟩ := rowsAt_filter_keep hnd' h2
        rw [heq]
        simp
        omega

lemma dropDuplicates_times_nodup (ds : List Row) :
    ((dropDuplicates ds).map Row.time).Nodup := by
  apply nodup_map_time_of_filter_le_one
  intro t
  rw [length_filter_time_dropDuplicates]
  omega

lemma dropDuplicates_sublist (ds : List Row) : dropDuplicates ds <+ ds := by
  rw [dropDuplicates]
  by_cases h : timesNodup ds
  · rw [if_pos h]
  · rw [if_neg h]
    have h1 : ds.enum.filter (fun p => keepRow ds p) <+ ds.enum := filter_sublist _
    have h2 := h1.map Prod.snd
    rwa [enum_map_snd] at h2

lemma dropDuplicates_eq_of_nodup {ds : List Row} (h : (ds.map Row.time).Nodup) :
    dropDuplicates ds = ds := by
  rw [dropDuplicates, if_pos (show timesNodup ds = true by simp [timesNodup, h])]

lemma mem_time_dropDuplicates {ds : List Row} {t : Int} :
    t ∈ (dropDuplicates ds).map Row.time ↔ t ∈ ds.map Row.time := by
  constructor
  · exact fun h => ((dropDuplicates_sublist ds).map Row.time).subset h
  · intro h
    obtain ⟨r, hr, rfl⟩ := mem_map.1 h
    have hpos : 0 < (ds.filter (fun x => decide (x.time = r.time))).length :=
      length_pos.2 (ne_nil_of_mem (mem_filter.2 ⟨hr, by simp⟩))
    have hcnt := length_filter_time_dropDuplicates ds r.time
    have hpos2 : 0 < ((dropDuplicates ds).filter (fun x => decide (x.time = r.time))).length := by
      omega
    obtain ⟨x, hx⟩ := exists_mem_of_length_pos hpos2
    have hxdd : x ∈ dropDuplicates ds := mem_of_mem_filter hx
    have hxt : x.time = r.time := by
      have := of_mem_filter hx
      simpa using this
    exact hxt ▸ mem_map_of_mem Row.time hxdd

lemma rowsAt_filter_notnan_map_snd (ds : List Row) (t : Int) :
    ((rowsAt ds t).filter (fun p => !p.2.mf.isNone)).map Prod.snd =
      (ds.filter (fun r => decide (r.time = t))).filter (fun r => !r.mf.isNone) := by
  conv_rhs => rw [← rowsAt_map_snd, filter_map]
  rfl

lemma mem_rowsAt_of_mem {ds : List Row} {t : Int} {p : Row}
    (hp : p ∈ ds) (hpt : p.time = t) : ∃ e ∈ rowsAt ds t, e.2 = p := by
  obtain ⟨e, he, hpe⟩ := exists_enum_of_mem hp
  exact ⟨e, mem_filter.2 ⟨he, by simp [hpe, hpt]⟩, hpe⟩

/-- Claim C1: at every duplicated timestamp, `drop_duplicates` keeps exactly
one row; it prefers a row with non-missing concentration whenever one exists
among the colliding rows; and when more than one non-missing value collides,
the kept row's instrument-type code appears earliest (no later than any other
colliding non-missing row's code) in the record's first-seen instrument
ordering. -/
theorem c1_drop_duplicates_duplicate_resolution (ds : List Row) (t : Int)
    (hdup : 2 ≤ (ds.filter (fun r => decide (r.time = t))).length) :
    ∃ q ∈ ds, q.time = t ∧
      (dropDuplicates ds).filter (fun r => decide (r.time = t)) = [q] ∧
      ((∃ p ∈ ds, p.time = t ∧ p.mf ≠ none) → q.mf ≠ none) ∧
      (2 ≤ ((ds.filter (fun r => decide (r.time = t))).filter
          (fun r => !r.mf.isNone)).length →
        ∀ p ∈ ds, p.time = t → p.mf ≠ none →
          (firstSeenInstruments ds).indexOf q.instrument_type ≤
            (firstSeenInstruments ds).indexOf p.instrument_type) := by
  have hnd : timesNodup ds = false := by
    by_contra h
    have ht : timesNodup ds = true := by simpa using h
    have := filter_time_le_one_of_nodup (of_decide_eq_true ht) t
    omega
  have hlen : (rowsAt ds t).length = (ds.filter (fun r => decide (r.time = t))).length := by
    rw [← rowsAt_map_snd, length_map]
  have h2 : 2 ≤ (rowsAt ds t).length := by omega
  obtain ⟨q, hq, heq, hprefer, hmin⟩ := rowsAt_filter_keep hnd h2
  refine ⟨q.2, List.snd_mem_of_mem_enum (mem_of_mem_filter hq), mem_rowsAt_time hq, heq,
    ?_, ?_⟩
  · rintro ⟨p, hp, hpt, hpmf⟩
    apply hprefer
    obtain ⟨e, he, hpe⟩ := mem_rowsAt_of_mem hp hpt
    exact ⟨e, he, by rw [hpe]; exact hpmf⟩
  · intro hcnt p hp hpt hpmf
    have hcnt' : 2 ≤ ((rowsAt ds t).filter (fun p => !p.2.mf.isNone)).length := by
      have := congrArg List.length (rowsAt_filter_notnan_map_snd ds t)
      rw [length_map] at this
      omega
    obtain ⟨e, he, hpe⟩ := mem_rowsAt_of_mem hp hpt
    have := hmin hcnt' e he (by rw [hpe]; exact hpmf)
    rwa [hpe] at this

/-- Input of the overlap scenario from the spec: at timestamp 1, instrument 0
reports NaN and instrument 1 reports 5.3. -/
def c1ds : List Row := [⟨1, none, 0⟩, ⟨1, some mf53, 1⟩]

theorem c1_drop_duplicates_duplicate_resolution_witness :
    (2 ≤ (c1ds.filter (fun r => decide (r.time = 1))).length) ∧
    (∃ q ∈ c1ds, q.time = 1 ∧
      (dropDuplicates c1ds).filter (fun r => decide (r.time = 1)) = [q] ∧
      ((∃ p ∈ c1ds, p.time = 1 ∧ p.mf ≠ none) → q.mf ≠ none) ∧
      (2 ≤ ((c1ds.filter (fun r => decide (r.time = 1))).filter
          (fun r => !r.mf.isNone)).length →
        ∀ p ∈ c1ds, p.time = 1 → p.mf ≠ none →
          (firstSeenInstruments c1ds).indexOf q.instrument_type ≤
            (firstSeenInstruments c1ds).indexOf p.instrument_type)) ∧
    dropDuplicates c1ds = [⟨1, some mf53, 1⟩] :=
  ⟨by decide, c1_drop_duplicates_duplicate_resolution c1ds 1 (by decide), by decide⟩

/-- Claim C10: `drop_duplicates` leaves duplicate-free input unchanged, its
output has exactly one row per distinct input timestamp (so no duplicate
timestamps), and a second application returns the first output unchanged. -/
theorem c10_drop_duplicates_idempotent (ds : List Row) :
    ((ds.map Row.time).Nodup → dropDuplicates ds = ds) ∧
    ((dropDuplicates ds).map Row.time).Nodup ∧
    (∀ t ∈ ds.map Row.time,
      ((dropDuplicates ds).filter (fun r => decide (r.time = t))).length = 1) ∧
    dropDuplicates (dropDuplicates ds) = dropDuplicates ds := by
  refine ⟨dropDuplicates_eq_of_nodup, dropDuplicates_times_nodup ds, ?_,
    dropDuplicates_eq_of_nodup (dropDuplicates_times_nodup ds)⟩
  intro t ht
  rw [length_filter_time_dropDuplicates]
  obtain ⟨r, hr, rfl⟩ := mem_map.1 ht
  have : 0 < (ds.filter (fun x => decide (x.time = r.time))).length :=
    length_pos.2 (ne_nil_of_mem (mem_filter.2 ⟨hr, by simp⟩))
  omega

theorem c10_drop_duplicates_idempotent_witness :
    dropDuplicates (dropDuplicates c1ds) = dropDuplicates c1ds ∧
    dropDuplicates [⟨1, none, 0⟩, ⟨2, some 5, 0⟩] = [⟨1, none, 0⟩, ⟨2, some 5, 0⟩] :=
  ⟨(c10_drop_duplicates_idempotent c1ds).2.2.2,
    (c10_drop_duplicates_idempotent [⟨1, none, 0⟩, ⟨2, some 5, 0⟩]).1 (by decide)⟩

/-- Two orderings of the same pair of colliding non-NaN rows. -/
def c4dsA : List Row := [⟨1, some 5, 0⟩, ⟨1, some 6, 1⟩]

/-- The reverse ordering of `c4dsA`. -/
def c4dsB : List Row := [⟨1, some 6, 1⟩, ⟨1, some 5, 0⟩]

/-- Claim C4 counterexample: reordering the same multiset of rows changes the
output of `drop_duplicates` (value 5 with instrument 0 is kept in one order,
value 6 with instrument 1 in the other), because the tie-break follows the
record's first-seen instrument ordering, which depends on row order. -/
theorem c4_order_independence_counterexample :
    c4dsA.Perm c4dsB ∧ dropDuplicates c4dsA ≠ dropDuplicates c4dsB := by
  constructor
  · decide
  · decide

/-- Claim C4 amended: resolution is deterministic, and the set of retained
timestamps is order-independent — permuting the input rows permutes the
output's (duplicate-free) timestamp list — but the identity of the row
retained at a collision can depend on the input order via the first-seen
instrument ordering. -/
theorem c4_amended_perm_times (ds₁ ds₂ : List Row) (h : ds₁.Perm ds₂) :
    ((dropDuplicates ds₁).map Row.time).Perm ((dropDuplicates ds₂).map Row.time) := by
  rw [perm_ext_iff_of_nodup (dropDuplicates_times_nodup ds₁) (dropDuplicates_times_nodup ds₂)]
  intro t
  rw [mem_time_dropDuplicates, mem_time_dropDuplicates]
  exact (h.map Row.time).mem_iff

theorem c4_amended_perm_times_witness :
    ((dropDuplicates c4dsA).map Row.time).Perm ((dropDuplicates c4dsB).map Row.time) :=
  c4_amended_perm_times c4dsA c4dsB (by decide)

/-! ### The normalization tail of `read_nc` and the Combiner (`combine_datasets`) -/

/-- `pd.Index(ds.time).is_monotonic_increasing` (io.py line 325):
nondecreasing timestamps. -/
def monotonicIncreasing : List Int → Bool
  | [] => true
  | [_] => true
  | a :: b :: rest => decide (a ≤ b) && monotonicIncreasing (b :: rest)

/-- Stable insertion of a row into a list sorted by time, placing the new
row before rows of equal timestamp it originally preceded. -/
def insertByTime (r : Row) : List Row → List Row
  | [] => [r]
  | s :: rest => if r.time ≤ s.time then r :: s :: rest else s :: insertByTime r rest

/-- `ds.sortby("time")`: a stable sort on the time coordinate, modelled as
insertion sort. -/
def sortByTime : List Row → List Row
  | [] => []
  | r :: rest => insertByTime r (sortByTime rest)

/-- Helper for `dedupKeepFirst`, carrying the set of times already seen. -/
def dedupKeepFirstGo (seen : List Int) : List Row → List Row
  | [] => []
  | r :: rest =>
    if r.time ∈ seen then dedupKeepFirstGo seen rest
    else r :: dedupKeepFirstGo (r.time :: seen) rest

/-- xarray's own `ds.drop_duplicates(dim="time")` with the default
`keep="first"`, used by `read_nc` (io.py line 328) and `combine_baseline`
(io.py line 1310): the first row of each timestamp survives. -/
def dedupKeepFirst (rows : List Row) : List Row := dedupKeepFirstGo [] rows

/-- `ds.dropna(dim="time", subset=["mf"])`: remove rows whose concentration
is missing. -/
def dropnaMf (rows : List Row) : List Row := rows.filter (fun r => !r.mf.isNone)

/-- The normalization tail of `read_nc` (io.py lines 324-332): sort by time
if the index is not monotonic, apply xarray's keep-first deduplication if any
timestamp repeats, then optionally drop rows with missing concentration.
(The source calls `ds.sortby("time", inplace=True)`; modern xarray has no
`inplace` argument, in which case a non-monotonic input raises instead of
being sorted — either way a successfully returned dataset went through the
sorted path modelled here.) -/
def readNcNormalize (dropna : Bool) (rows : List Row) : List Row :=
  if dropna then
    dropnaMf
      (if timesNodup (if monotonicIncreasing (rows.map Row.time) then rows
          else sortByTime rows) then
        (if monotonicIncreasing (rows.map Row.time) then rows
          else sortByTime rows)
      else
        dedupKeepFirst (if monotonicIncreasing (rows.map Row.time) then rows
          else sortByTime rows))
  else
    (if timesNodup (if monotonicIncreasing (rows.map Row.time) then rows
        else sortByTime rows) then
      (if monotonicIncreasing (rows.map Row.time) then rows
        else sortByTime rows)
    else
      dedupKeepFirst (if monotonicIncreasing (rows.map Row.time) then rows
        else sortByTime rows))

/-- Per-instrument input to the Combiner: the rows produced by the
per-instrument reader together with the dataset's `calibration_scale`
attribute, which `combine_datasets` records in `scales` (io.py line 1203). -/
structure InstrumentData where
  rows : List Row
  scale : String
deriving DecidableEq, Repr

/-- `ds.sel(time=slice(*date))` of io.py line 1183: label-based slicing,
inclusive of both endpoints; `none` models an open end. -/
def sliceTime (lo hi : Option Int) (rows : List Row) : List Row :=
  rows.filter (fun r =>
    (match lo with
      | none => true
      | some l => decide (l ≤ r.time)) &&
    (match hi with
      | none => true
      | some h => decide (r.time ≤ h)))

/-- Structured stand-ins for the `ValueError`s of `combine_datasets`, each
carrying exactly the data interpolated into the corresponding message string:
`emptySlice` for "No data retained for {species} {site} {instrument}..."
(io.py line 1186), `scaleMismatch` for "Can't combine scales that do not
match..." followed by one "{instrument}:{scale}" item per instrument
(io.py lines 1213-1216), and `emptyConcat` for the `ValueError` that
`xr.concat([], dim="time")` itself raises when the instrument table is
empty. -/
inductive CombineError where
  | emptySlice (species site instrument : String)
  | scaleMismatch (pairs : List (String × String))
  | emptyConcat
deriving DecidableEq, Repr

/-- The per-instrument loop of `combine_datasets` (io.py lines 1150-1209):
read each configured instrument, slice it to its configured date range, fail
on an empty slice, and record the sliced rows and the calibration scale. -/
def combineLoop (species site : String) (read : String → InstrumentData) :
    List (String × Option Int × Option Int) →
      Except CombineError (List (List Row) × List String)
  | [] => .ok ([], [])
  | (inst, lo, hi) :: rest =>
    if (sliceTime lo hi (read inst).rows).length = 0 then
      .error (.emptySlice species site inst)
    else
      match combineLoop species site read rest with
      | .error e => .error e
      | .ok (dss, scales) =>
        .ok (sliceTime lo hi (read inst).rows :: dss, (read inst).scale :: scales)

/-- `combine_datasets` (io.py lines 1115-1259), abstracted over the
per-instrument reader: run the per-instrument loop, abort if more than one
distinct calibration scale was recorded (naming every instrument with its
scale, before any concatenation), concatenate along time (`xr.concat`, which
raises on an empty list), sort by time, resolve duplicate timestamps with
`drop_duplicates`, and optionally drop missing concentrations. -/
def combineDatasets (species site : String) (read : String → InstrumentData)
    (instruments : List (String × Option Int × Option Int)) (dropna : Bool) :
    Except CombineError (List Row) :=
  match combineLoop species site read instruments with
  | .error e => .error e
  | .ok (dss, scales) =>
    if 1 < scales.dedup.length then
      .error (.scaleMismatch (List.zip (instruments.map (fun i => i.1)) scales))
    else if dss.length = 0 then
      .error .emptyConcat
    else
      .ok (if dropna then dropnaMf (dropDuplicates (sortByTime dss.flatten))
        else dropDuplicates (sortByTime dss.flatten))

/-! ### Supporting lemmas for the reader and Combiner invariants -/

lemma monotonicIncreasing_chain :
    ∀ (l : List Int), monotonicIncreasing l = true → l.Chain' (· ≤ ·)
  | [], _ => by simp
  | [_], _ => by simp
  | a :: b :: rest, h => by
    rw [monotonicIncreasing, Bool.and_eq_true, decide_eq_true_iff] at h
    rw [chain'_cons]
    exact ⟨h.1, monotonicIncreasing_chain (b :: rest) h.2⟩

lemma monotonicIncreasing_pairwise {l : List Int} (h : monotonicIncreasing l = true) :
    l.Pairwise (· ≤ ·) :=
  chain'_iff_pairwise.1 (monotonicIncreasing_chain l h)

lemma mem_insertByTime {r x : Row} :
    ∀ {l : List Row}, x ∈ insertByTime r l → x = r ∨ x ∈ l
  | [], h => Or.inl (mem_singleton.1 h)
  | s :: rest, h => by
    rw [insertByTime] at h
    split at h
    · rcases mem_cons.1 h with rfl | h'
      · exact Or.inl rfl
      · exact Or.inr h'
    · rcases mem_cons.1 h with rfl | h'
      · exact Or.inr (mem_cons_self _ _)
      · rcases mem_insertByTime h' with h'' | h''
        · exact Or.inl h''
        · exact Or.inr (mem_cons_of_mem _ h'')

lemma insertByTime_pairwise (r : Row) :
    ∀ {l : List Row}, (l.map Row.time).Pairwise (· ≤ ·) →
      ((insertByTime r l).map Row.time).Pairwise (· ≤ ·)
  | [], _ => by simp [insertByTime]
  | s :: rest, h => by
    rw [map_cons, pairwise_cons] at h
    obtain ⟨hs, hrest⟩ := h
    rw [insertByTime]
    split
    · next hle =>
      rw [map_cons, map_cons, pairwise_cons]
      refine ⟨?_, by rw [pairwise_cons]; exact ⟨hs, hrest⟩⟩
      intro t ht
      rcases mem_cons.1 ht with rfl | ht'
      · exact hle
      · exact le_trans hle (hs t ht')
    · next hgt =>
      rw [map_cons, pairwise_cons]
      refine ⟨?_, insertByTime_pairwise r hrest⟩
      intro t ht
      rcases mem_map.1 ht with ⟨x, hx, rfl⟩
      rcases mem_insertByTime hx with rfl | hx'
      · omega
      · exact hs _ (mem_map_of_mem _ hx')

lemma sortByTime_pairwise :
    ∀ (l : List Row), ((sortByTime l).map Row.time).Pairwise (· ≤ ·)
  | [] => by simp [sortByTime]
  | r :: rest => by
    rw [sortByTime]
    exact insertByTime_pairwise r (sortByTime_pairwise rest)

lemma dedupKeepFirstGo_sublist (seen : List Int) :
    ∀ (l : List Row), dedupKeepFirstGo seen l <+ l
  | [] => Sublist.refl _
  | r :: rest => by
    rw [dedupKeepFirstGo]
    split
    · exact (dedupKeepFirstGo_sublist seen rest).cons r
    · exact (dedupKeepFirstGo_sublist (r.time :: seen) rest).cons₂ r

lemma dedupKeepFirstGo_nodup :
    ∀ (l : List Row) (seen : List Int),
      ((dedupKeepFirstGo seen l).map Row.time).Nodup ∧
      ∀ t ∈ (dedupKeepFirstGo seen l).map Row.time, t ∉ seen
  | [], seen => by simp [dedupKeepFirstGo]
  | r :: rest, seen => by
    rw [dedupKeepFirstGo]
    split
    · exact dedupKeepFirstGo_nodup rest seen
    · next hns =>
      obtain ⟨ih1, ih2⟩ := dedupKeepFirstGo_nodup rest (r.time :: seen)
      rw [map_cons, nodup_cons]
      refine ⟨⟨?_, ih1⟩, ?_⟩
      · intro hmem
        exact (ih2 _ hmem) (mem_cons_self _ _)
      · intro t ht
        rcases mem_cons.1 ht with rfl | ht'
        · exact hns
        · exact fun hseen => (ih2 _ ht') (mem_cons_of_mem _ hseen)

lemma dedupKeepFirst_nodup (l : List Row) :
    ((dedupKeepFirst l).map Row.time).Nodup :=
  (dedupKeepFirstGo_nodup l []).1

lemma dedupKeepFirst_sublist (l : List Row) : dedupKeepFirst l <+ l :=
  dedupKeepFirstGo_sublist [] l

lemma strict_time_of_le_nodup {l : List Row}
    (hle : (l.map Row.time).Pairwise (· ≤ ·)) (hnd : (l.map Row.time).Nodup) :
    (l.map Row.time).Pairwise (· < ·) :=
  Sorted.lt_of_le hle hnd

/-- Part of Claim C5 for `read_nc`: after the sort / dedup / dropna tail,
the time coordinate is strictly increasing. -/
lemma readNcNormalize_strict (dropna : Bool) (rows : List Row) :
    ((readNcNormalize dropna rows).map Row.time).Pairwise (· < ·) := by
  rw [readNcNormalize]
  set l1 := if monotonicIncreasing (rows.map Row.time) then rows
    else sortByTime rows with hl1
  have hsorted : (l1.map Row.time).Pairwise (· ≤ ·) := by
    rw [hl1]
    split
    · next h => exact monotonicIncreasing_pairwise h
    · exact sortByTime_pairwise rows
  have hstrict :
      (((if timesNodup l1 then l1 else dedupKeepFirst l1)).map Row.time).Pairwise (· < ·) := by
    split
    · next h => exact strict_time_of_le_nodup hsorted (of_decide_eq_true h)
    · exact strict_time_of_le_nodup
        (hsorted.sublist ((dedupKeepFirst_sublist _).map Row.time))
        (dedupKeepFirst_nodup _)
  split
  · exact hstrict.sublist ((filter_sublist _).map Row.time)
  · exact hstrict

lemma combined_strict (l : List Row) :
    ((dropDuplicates (sortByTime l)).map Row.time).Pairwise (· < ·) :=
  strict_time_of_le_nodup
    ((sortByTime_pairwise l).sublist ((dropDuplicates_sublist _).map Row.time))
    (dropDuplicates_times_nodup _)

lemma combineLoop_ok {species site : String} {read : String → InstrumentData} :
    ∀ {instruments : List (String × Option Int × Option Int)},
      (∀ i ∈ instruments, (sliceTime i.2.1 i.2.2 (read i.1).rows).length ≠ 0) →
      combineLoop species site read instruments =
        .ok (instruments.map (fun i => sliceTime i.2.1 i.2.2 (read i.1).rows),
             instruments.map (fun i => (read i.1).scale))
  | [], _ => rfl
  | (inst, lo, hi) :: rest, h => by
    rw [combineLoop, if_neg (h (inst, lo, hi) (mem_cons_self _ _)),
      combineLoop_ok (fun i hi => h i (mem_cons_of_mem _ hi))]
    rfl

lemma combineDatasets_error_of_loop {species site : String} {read : String → InstrumentData}
    {instruments : List (String × Option Int × Option Int)} {dropna : Bool}
    {e : CombineError} (h : combineLoop species site read instruments = .error e) :
    combineDatasets species site read instruments dropna = .error e := by
  rw [combineDatasets, h]

lemma combineLoop_empty_slice {species site : String} {read : String → InstrumentData} :
    ∀ {instruments : List (String × Option Int × Option Int)},
      (∃ i ∈ instruments, (sliceTime i.2.1 i.2.2 (read i.1).rows).length = 0) →
      ∃ i ∈ instruments, (sliceTime i.2.1 i.2.2 (read i.1).rows).length = 0 ∧
        combineLoop species site read instruments = .error (.emptySlice species site i.1)
  | [], h => by
    obtain ⟨i, hi, -⟩ := h
    cases hi
  | a :: rest, h => by
    obtain ⟨inst, lo, hi'⟩ := a
    by_cases ha : (sliceTime lo hi' (read inst).rows).length = 0
    · exact ⟨(inst, lo, hi'), mem_cons_self _ _, ha, by rw [combineLoop, if_pos ha]⟩
    · have hrest : ∃ i ∈ rest, (sliceTime i.2.1 i.2.2 (read i.1).rows).length = 0 := by
        obtain ⟨i, hi, hempty⟩ := h
        rcases mem_cons.1 hi with rfl | h'
        · exact absurd hempty ha
        · exact ⟨i, h', hempty⟩
      obtain ⟨j, hj, hjempty, hjerr⟩ := combineLoop_empty_slice hrest
      refine ⟨j, mem_cons_of_mem _ hj, hjempty, ?_⟩
      rw [combineLoop, if_neg ha, hjerr]

/-- Claim C3: whenever the per-instrument datasets resolve to more than one
distinct calibration scale, `combine_datasets` fails — before any
concatenation takes place — with an error carrying every instrument paired
with its resolved scale (the data interpolated into the "Can't combine scales
that do not match" message). -/
theorem c3_scale_mismatch_error (species site : String) (read : String → InstrumentData)
    (instruments : List (String × Option Int × Option Int)) (dropna : Bool)
    (hslices : ∀ i ∈ instruments, (sliceTime i.2.1 i.2.2 (read i.1).rows).length ≠ 0)
    (hscales : 1 < ((instruments.map (fun i => (read i.1).scale)).dedup).length) :
    combineDatasets species site read instruments dropna =
      .error (.scaleMismatch (instruments.map (fun i => (i.1, (read i.1).scale)))) := by
  rw [combineDatasets, combineLoop_ok hslices]
  simp only [if_pos hscales]
  rw [zip_map']

/-- Instruments table of the scale-mismatch scenario: two instruments, no
date bounds. -/
def c3insts : List (String × Option Int × Option Int) :=
  [("ALE", none, none), ("GAGE", none, none)]

/-- Reader for the scale-mismatch scenario: the two instruments resolve to
different calibration scales. -/
def c3read : String → InstrumentData := fun inst =>
  if inst = "ALE" then ⟨[⟨0, some 1, 0⟩], "SIO-05"⟩ else ⟨[⟨0, some 2, 1⟩], "SIO-98"⟩

theorem c3_scale_mismatch_error_witness :
    combineDatasets "ch4" "CGO" c3read c3insts true =
      .error (.scaleMismatch (c3insts.map (fun i => (i.1, (c3read i.1).scale)))) :=
  c3_scale_mismatch_error "ch4" "CGO" c3read c3insts true (by decide) (by decide)

/-- Claim C6: an instrument whose configured date-range slice is empty makes
`combine_datasets` fail with an error identifying the species, site and
instrument rather than silently skipping it; and for zero configured
instrument epochs the function fails at the empty concatenation, never
returning an empty combined record. -/
theorem c6_empty_epoch_errors (species site : String) (read : String → InstrumentData)
    (dropna : Bool) :
    (∀ instruments : List (String × Option Int × Option Int),
      (∃ i ∈ instruments, (sliceTime i.2.1 i.2.2 (read i.1).rows).length = 0) →
      ∃ i ∈ instruments, (sliceTime i.2.1 i.2.2 (read i.1).rows).length = 0 ∧
        combineDatasets species site read instruments dropna =
          .error (.emptySlice species site i.1)) ∧
    combineDatasets species site read [] dropna = .error .emptyConcat := by
  constructor
  · intro instruments h
    obtain ⟨j, hj, hjempty, hjerr⟩ := combineLoop_empty_slice h
    exact ⟨j, hj, hjempty, combineDatasets_error_of_loop hjerr⟩
  · rfl

/-- Instruments table of the empty-slice scenario: one instrument whose
configured range [10, 20] misses all of its data. -/
def c6insts : List (String × Option Int × Option Int) :=
  [("GCMD", some 10, some 20)]

/-- Reader for the empty-slice scenario: all rows at time 0. -/
def c6read : String → InstrumentData := fun _ => ⟨[⟨0, some 1, 0⟩], "SIO-05"⟩

theorem c6_empty_epoch_errors_witness :
    (∃ i ∈ c6insts, (sliceTime i.2.1 i.2.2 (c6read i.1).rows).length = 0 ∧
      combineDatasets "ch4" "CGO" c6read c6insts true =
        .error (.emptySlice "ch4" "CGO" i.1)) ∧
    combineDatasets "ch4" "CGO" c6read [] true = .error .emptyConcat :=
  ⟨(c6_empty_epoch_errors "ch4" "CGO" c6read true).1 c6insts (by decide),
    (c6_empty_epoch_errors "ch4" "CGO" c6read true).2⟩

/-- Claim C5: the reader's normalization tail and the combiner both deliver a
strictly increasing (hence duplicate-free) time coordinate on success, with
the parallel per-row sequences by construction of equal length. -/
theorem c5_time_invariants :
    (∀ (dropna : Bool) (rows : List Row),
      ((readNcNormalize dropna rows).map Row.time).Pairwise (· < ·) ∧
      ((readNcNormalize dropna rows).map Row.mf).length =
        ((readNcNormalize dropna rows).map Row.time).length) ∧
    (∀ (species site : String) (read : String → InstrumentData)
      (instruments : List (String × Option Int × Option Int)) (dropna : Bool)
      (out : List Row),
      combineDatasets species site read instruments dropna = .ok out →
      ((out.map Row.time).Pairwise (· < ·) ∧
        (out.map Row.mf).length = (out.map Row.time).length)) := by
  constructor
  · intro dropna rows
    exact ⟨readNcNormalize_strict dropna rows, by simp⟩
  · intro species site read instruments dropna out h
    rw [combineDatasets] at h
    cases hcl : combineLoop species site read instruments with
    | error e =>
      rw [hcl] at h
      cases h
    | ok x =>
      obtain ⟨dss, scales⟩ := x
      rw [hcl] at h
      replace h :
          (if 1 < scales.dedup.length then
            Except.error (CombineError.scaleMismatch
              ((instruments.map (fun i => i.1)).zip scales))
          else if dss.length = 0 then Except.error CombineError.emptyConcat
          else Except.ok
            (if dropna = true then dropnaMf (dropDuplicates (sortByTime dss.flatten))
            else dropDuplicates (sortByTime dss.flatten))) = Except.ok out := h
      by_cases h1 : 1 < scales.dedup.length
      · rw [if_pos h1] at h
        cases h
      · rw [if_neg h1] at h
        by_cases h2 : dss.length = 0
        · rw [if_pos h2] at h
          cases h
        · rw [if_neg h2] at h
          have hout : out = if dropna = true then
              dropnaMf (dropDuplicates (sortByTime dss.flatten))
            else dropDuplicates (sortByTime dss.flatten) := by
            cases h
            rfl
          subst hout
          refine ⟨?_, by simp⟩
          by_cases hd : dropna = true
          · rw [if_pos hd]
            exact (combined_strict _).sublist ((filter_sublist _).map Row.time)
          · rw [if_neg hd]
            exact combined_strict _

/-- Unsorted, duplicated input for the reader-side witness. -/
def c5rows : List Row := [⟨2, some 1, 0⟩, ⟨0, none, 0⟩, ⟨0, some 2, 0⟩]

/-- Reader for the combiner-side witness. -/
def c5read : String → InstrumentData := fun _ => ⟨[⟨1, some 2, 0⟩, ⟨0, some 1, 0⟩], "SIO-05"⟩

/-- Instruments table for the combiner-side witness. -/
def c5insts : List (String × Option Int × Option Int) := [("AGAGE", none, none)]

/-- The combined output of the combiner-side witness. -/
def c5out : List Row := [⟨0, some 1, 0⟩, ⟨1, some 2, 0⟩]

theorem c5_time_invariants_witness :
    (((readNcNormalize true c5rows).map Row.time).Pairwise (· < ·) ∧
      ((readNcNormalize true c5rows).map Row.mf).length =
        ((readNcNormalize true c5rows).map Row.time).length) ∧
    ((c5out.map Row.time).Pairwise (· < ·) ∧
      (c5out.map Row.mf).length = (c5out.map Row.time).length) :=
  ⟨c5_time_invariants.1 true c5rows,
    c5_time_invariants.2 "ch4" "CGO" c5read c5insts true c5out (by rfl)⟩

/-! ### `run_timestamp_checks` (run.py) and the xarray alignment semantics -/

/-- `run_timestamp_checks` of run.py lines 37-66, on the time coordinates of
the combined data and (optional) baseline datasets.  The first two guards
raise on duplicated timestamps.  The final guard evaluates
`(ds_baseline.time != ds.time).any()`; xarray binary operations first align
both labelled arrays on their common index with the default
`arithmetic_join="inner"`, so the comparison runs only over timestamps
present in BOTH grids, where the time coordinate trivially equals itself. -/
def runTimestampChecks (dsTime : List Int) (dsBaselineTime : Option (List Int))
    (species site : String) : Except String Unit :=
  if ¬ dsTime.Nodup then
    .error ("Duplicate timestamps in " ++ species ++ " at " ++ site)
  else
    match dsBaselineTime with
    | none => .ok ()
    | some bt =>
      if ¬ bt.Nodup then
        .error ("Duplicate timestamps in baseline for " ++ species ++ " at " ++ site)
      else if (bt.filter (fun t => decide (t ∈ dsTime))).any (fun t => decide (t ≠ t)) then
        .error ("Data and baseline files for " ++ species ++ " at " ++ site ++
          " have different timestamps")
      else .ok ()

/-- Claim C2 (code defect): the misaligned-baseline guard of
`run_timestamp_checks` never fires.  With combined data timestamps `[0, 1]`
and a baseline grid `[0]` missing timestamp 1, the inner-join alignment
reduces `(ds_baseline.time != ds.time)` to an elementwise comparison of the
shared label 0 with itself, so the check returns `ok` even though the two
timestamp sequences differ — no `ValueError` is raised where the spec
requires a `MisalignedBaseline` failure. -/
theorem c2_misaligned_baseline_not_caught :
    runTimestampChecks [0, 1] (some [0]) "ch4" "CGO" = .ok () ∧
    ([0] : List Int) ≠ [0, 1] :=
  ⟨rfl, by decide⟩

/-! ### The per-unit batch loop of `run_combined_site` (run.py) -/

/-- Whether `sub` occurs at the head of `s`. -/
def leadsWith : List Char → List Char → Bool
  | [], _ => true
  | _ :: _, [] => false
  | a :: as, b :: bs => a = b && leadsWith as bs

/-- Python's substring containment `sub in s`. -/
def hasSub : List Char → List Char → Bool
  | [], sub => sub.isEmpty
  | a :: rest, sub => leadsWith sub (a :: rest) || hasSub rest sub

/-- Python's substring containment on strings. -/
def strHasSub (s sub : String) : Bool := hasSub s.toList sub.toList

/-- Python `str.split(sep)` for a single-character separator. -/
def splitOnChar (c : Char) : List Char → List (List Char)
  | [] => [[]]
  | a :: rest =>
    if a = c then [] :: splitOnChar c rest
    else
      match splitOnChar c rest with
      | [] => [[a]]
      | g :: gs => (a :: g) :: gs

/-- `t.filename.split('/')[-1].split('.')[0]` of run.py line 31: the base
name of a stack frame's file. -/
def shortFileName (filename : String) : String :=
  ⟨(splitOnChar '.' ((splitOnChar '/' filename.toList).getLastD [])).headD []⟩

/-- One Python exception as `get_error` consumes it: the exception class
name, `str(e)`, and the traceback frames as (filename, line number) pairs. -/
structure PyError where
  errorType : String
  message : String
  stack : List (String × Nat)
deriving Repr

/-- `get_error` of run.py lines 15-34: `"{error_type} in stack: "` followed
by the " / "-joined abbreviated frames whose filename contains "_archive",
then `". "` and the exception message. -/
def getError (e : PyError) : String :=
  e.errorType ++ " in stack: " ++
    String.intercalate " / " ((e.stack.filter (fun f => strHasSub f.1 "_archive")).map
      (fun f => shortFileName f.1 ++ " (line " ++ toString f.2 ++ ")")) ++
    ". " ++ e.message

lemma getError_ne_empty (e : PyError) : getError e ≠ "" := by
  intro h
  have hlen := congrArg String.length h
  rw [getError] at hlen
  simp only [String.length_append] at hlen
  have h10 : (" in stack: " : String).length = 11 := by decide
  have h2 : (". " : String).length = 2 := by decide
  have h0 : ("" : String).length = 0 := by decide
  omega

/-- The per-species loop of `run_combined_site` (run.py lines 324-386): each
species is processed inside try/except; on success `""` is appended to the
error log and the combined dataset is written, on failure `get_error(e)` is
appended and the loop continues with the next species.  Returns the error
log together with the outputs of the successful units. -/
def runCombinedSiteLoop (process : String → Except PyError (List Row)) :
    List String → List String × List (List Row)
  | [] => ([], [])
  | sp :: rest =>
    match process sp, runCombinedSiteLoop process rest with
    | .ok o, r => ("" :: r.1, o :: r.2)
    | .error e, r => (getError e :: r.1, r.2)

/-- The value `run_combined_site` returns (run.py line 386):
`[(site, sp, error) for sp, error in zip(species_to_process, error_log)]`. -/
def runCombinedSiteResults (site : String) (process : String → Except PyError (List Row))
    (sps : List String) : List (String × String × String) :=
  (sps.zip ((runCombinedSiteLoop process sps).1)).map (fun p => (site, p.1, p.2))

lemma runCombinedSiteLoop_all_ok {process : String → Except PyError (List Row)} :
    ∀ {l : List String}, (∀ sp ∈ l, ∃ o, process sp = .ok o) →
      (runCombinedSiteLoop process l).1.filter (fun s => !(s == "")) = [] ∧
      (runCombinedSiteLoop process l).1 = l.map (fun _ => "") ∧
      (runCombinedSiteLoop process l).2.length = l.length
  | [], _ => by simp [runCombinedSiteLoop]
  | sp :: rest, h => by
    obtain ⟨o, ho⟩ := h sp (mem_cons_self _ _)
    obtain ⟨ih1, ih2, ih3⟩ :=
      runCombinedSiteLoop_all_ok (fun x hx => h x (mem_cons_of_mem _ hx))
    rw [runCombinedSiteLoop, ho]
    refine ⟨?_, ?_, ?_⟩
    · simpa using ih1
    · simpa using ih2
    · simpa using ih3

lemma runCombinedSiteLoop_one_fail {process : String → Except PyError (List Row)}
    {sp₀ : String} {e : PyError} (hfail : process sp₀ = .error e) :
    ∀ (pre : List String) (post : List String),
      (∀ sp ∈ pre ++ post, ∃ o, process sp = .ok o) →
      (runCombinedSiteLoop process (pre ++ sp₀ :: post)).1.filter
          (fun s => !(s == "")) = [getError e] ∧
      (runCombinedSiteLoop process (pre ++ sp₀ :: post)).2.length =
        pre.length + post.length ∧
      (sp₀, getError e) ∈
        (pre ++ sp₀ :: post).zip (runCombinedSiteLoop process (pre ++ sp₀ :: post)).1
  | [], post, h => by
    obtain ⟨ih1, ih2, ih3⟩ := runCombinedSiteLoop_all_ok (l := post) (by simpa using h)
    rw [nil_append, runCombinedSiteLoop, hfail]
    have hne : (getError e == "") = false :=
      beq_eq_false_iff_ne.2 (getError_ne_empty e)
    refine ⟨?_, by simpa using ih3, ?_⟩
    · rw [filter_cons]
      simp only [hne]
      simpa using ih1
    · exact mem_cons_self _ _
  | sp :: pre, post, h => by
    obtain ⟨o, ho⟩ := h sp (mem_cons_self _ _)
    obtain ⟨ih1, ih2, ih3⟩ := runCombinedSiteLoop_one_fail hfail pre post
      (fun x hx => h x (mem_cons_of_mem _ hx))
    rw [cons_append, runCombinedSiteLoop, ho]
    refine ⟨?_, ?_, ?_⟩
    · rw [filter_cons]
      simpa using ih1
    · simp only [length_cons, cons_append]
      omega
    · exact mem_cons_of_mem _ ih3

/-- One unit of work of the individual-instrument runner, as
`run_individual_site` (run.py lines 69-204) processes it: the `Paths`
resolution of run.py line 103 — `Paths(network, errors="ignore_outputs",
site=site_str)`, which still checks that every input folder exists
(config.py lines 113-129) and raises `FileNotFoundError` if one is missing —
followed by the try-wrapped body (read, checks, outputs, run.py lines
107-202).  The `Paths` call sits OUTSIDE the try. -/
structure IndividualUnit where
  paths : Except PyError Unit
  body : Except PyError (List Row)

/-- Whether processing this unit raises an exception anywhere (in the
`Paths` resolution or in the try-wrapped body). -/
def unitRaises (u : IndividualUnit) : Bool :=
  match u.paths, u.body with
  | .ok _, .ok _ => false
  | _, _ => true

/-- `run_individual_site` for one (site, species) unit: an exception from
the `Paths` call escapes the function (there is no surrounding handler); an
exception from the body is caught by the try/except, logged via `get_error`,
and the function returns its `(site, species, error)` triple (run.py line
204) together with the output written on success. -/
def runIndividualSite (site species : String) (u : IndividualUnit) :
    Except PyError ((String × String × String) × Option (List Row)) :=
  match u.paths with
  | .error e => .error e
  | .ok _ =>
    match u.body with
    | .ok o => .ok ((site, species, ""), some o)
    | .error e => .ok ((site, species, getError e), none)

/-- The per-unit loop of `run_individual_instrument` (run.py lines 262-270):
call `run_individual_site` for each (site, species) unit and append its
result to the error log.  The loop has no try/except of its own, so an
exception escaping `run_individual_site` propagates and aborts the batch
(modelled by the `Except.error` outcome, which carries no log and no
outputs). -/
def runIndividualLoop :
    List (String × String × IndividualUnit) →
      Except PyError (List (String × String × String) × List (List Row))
  | [] => .ok ([], [])
  | (site, species, u) :: rest =>
    match runIndividualSite site species u with
    | .error e => .error e
    | .ok (entry, out) =>
      match runIndividualLoop rest with
      | .error e => .error e
      | .ok r =>
        .ok (entry :: r.1,
          match out with
          | some o => o :: r.2
          | none => r.2)

/-- The exception raised by the `Paths` resolution of the aborting unit. -/
def c7pathsErr : PyError :=
  ⟨"FileNotFoundError", "Folder or zip archive for site does not exist",
    [("agage_archive/config.py", 127), ("agage_archive/run.py", 103)]⟩

/-- A unit whose processing succeeds end to end. -/
def c7goodUnit : IndividualUnit := ⟨.ok (), .ok []⟩

/-- A unit whose `Paths` resolution (run.py line 103, outside the per-unit
try) raises. -/
def c7pathsFailUnit : IndividualUnit := ⟨.error c7pathsErr, .ok []⟩

/-- A batch of three (site, species) units in which exactly one unit raises:
its `Paths` call fails for a site-specific missing input folder. -/
def c7abortUnits : List (String × String × IndividualUnit) :=
  [("CGO", "ch4", c7goodUnit), ("MHD", "ch4", c7pathsFailUnit),
    ("CGO", "n2o", c7goodUnit)]

/-- Claim C7 counterexample: in this batch of N = 3 units exactly one unit's
processing raises an exception, yet the individual runner's per-unit loop
does not produce the other N-1 outputs with one logged error — it propagates
the exception and aborts the batch, returning no log and no outputs at all,
because the raising `Paths` call of run.py line 103 sits outside the
per-unit try/except. -/
theorem c7_batch_isolation_counterexample :
    (c7abortUnits.filter (fun u => unitRaises u.2.2)).length = 1 ∧
    runIndividualLoop c7abortUnits = .error c7pathsErr ∧
    ∀ log outs, runIndividualLoop c7abortUnits ≠ .ok (log, outs) := by
  refine ⟨by decide, rfl, ?_⟩
  intro log outs h
  rw [show runIndividualLoop c7abortUnits = .error c7pathsErr from rfl] at h
  cases h

lemma runIndividualLoop_all_ok :
    ∀ {units : List (String × String × IndividualUnit)},
      (∀ u ∈ units, u.2.2.paths = .ok ()) →
      (∀ u ∈ units, ∃ o, u.2.2.body = .ok o) →
      ∃ outs, runIndividualLoop units =
          .ok (units.map (fun u => (u.1, u.2.1, "")), outs) ∧
        outs.length = units.length
  | [], _, _ => ⟨[], rfl, rfl⟩
  | (site, species, u) :: rest, hpaths, hbody => by
    obtain ⟨o, ho⟩ := hbody (site, species, u) (mem_cons_self _ _)
    have hp : u.paths = .ok () := hpaths (site, species, u) (mem_cons_self _ _)
    obtain ⟨outs, hrest, hlen⟩ := runIndividualLoop_all_ok
      (fun x hx => hpaths x (mem_cons_of_mem _ hx))
      (fun x hx => hbody x (mem_cons_of_mem _ hx))
    refine ⟨o :: outs, ?_, by simpa using hlen⟩
    rw [runIndividualLoop, runIndividualSite, hp, ho, hrest]
    rfl

lemma runIndividualLoop_one_fail {u₀ : String × String × IndividualUnit} {e : PyError}
    (hp₀ : u₀.2.2.paths = .ok ()) (hb₀ : u₀.2.2.body = .error e) :
    ∀ (preU postU : List (String × String × IndividualUnit)),
      (∀ u ∈ preU ++ postU, u.2.2.paths = .ok ()) →
      (∀ u ∈ preU ++ postU, ∃ o, u.2.2.body = .ok o) →
      ∃ outs, runIndividualLoop (preU ++ u₀ :: postU) =
          .ok (preU.map (fun u => (u.1, u.2.1, "")) ++
            (u₀.1, u₀.2.1, getError e) :: postU.map (fun u => (u.1, u.2.1, "")), outs) ∧
        outs.length = preU.length + postU.length
  | [], postU, hpaths, hbody => by
    obtain ⟨outs, hpost, hlen⟩ := runIndividualLoop_all_ok
      (by simpa using hpaths) (by simpa using hbody)
    obtain ⟨s₀, sp₀, v₀⟩ := u₀
    refine ⟨outs, ?_, by simpa using hlen⟩
    rw [nil_append, runIndividualLoop, runIndividualSite]
    rw [show v₀.paths = Except.ok () from hp₀, show v₀.body = Except.error e from hb₀,
      hpost]
    rfl
  | p :: preU, postU, hpaths, hbody => by
    obtain ⟨s, sp, v⟩ := p
    have hp : v.paths = .ok () := hpaths (s, sp, v) (mem_cons_self _ _)
    obtain ⟨o, ho⟩ := hbody (s, sp, v) (mem_cons_self _ _)
    obtain ⟨outs, hrest, hlen⟩ := runIndividualLoop_one_fail hp₀ hb₀ preU postU
      (fun x hx => hpaths x (mem_cons_of_mem _ hx))
      (fun x hx => hbody x (mem_cons_of_mem _ hx))
    refine ⟨o :: outs, ?_, by simp only [length_cons]; omega⟩
    rw [cons_append, runIndividualLoop, runIndividualSite, hp, ho, hrest]
    rfl

/-- Claim C7 amended: the combined runner's per-species loop isolates
failures exactly as claimed — with one failing species among N, the loop
returns N-1 outputs and exactly one non-empty log entry, `get_error` of the
exception, paired with its site and species.  The individual runner isolates
only exceptions raised inside the per-unit try block: if every unit's
`Paths` resolution succeeds and exactly one unit's body raises, the batch
completes with N-1 outputs, every unit logged, and exactly one non-empty
entry carrying that unit's site, species and `get_error` message.  (An
exception from the `Paths` call itself — which runs before the try — aborts
the whole batch instead; see the counterexample.) -/
theorem c7_amended_batch_isolation (site : String)
    (process : String → Except PyError (List Row))
    (pre post : List String) (sp₀ : String) (e : PyError)
    (hok : ∀ sp ∈ pre ++ post, ∃ o, process sp = .ok o)
    (hfail : process sp₀ = .error e)
    (preU postU : List (String × String × IndividualUnit))
    (u₀ : String × String × IndividualUnit) (e' : PyError)
    (hpaths : ∀ u ∈ preU ++ u₀ :: postU, u.2.2.paths = .ok ())
    (hbodyok : ∀ u ∈ preU ++ postU, ∃ o, u.2.2.body = .ok o)
    (hbodyfail : u₀.2.2.body = .error e') :
    ((runCombinedSiteLoop process (pre ++ sp₀ :: post)).2.length =
        (pre ++ sp₀ :: post).length - 1 ∧
      (runCombinedSiteLoop process (pre ++ sp₀ :: post)).1.filter
          (fun s => !(s == "")) = [getError e] ∧
      (site, sp₀, getError e) ∈ runCombinedSiteResults site process (pre ++ sp₀ :: post) ∧
      getError e ≠ "") ∧
    (∃ log outs, runIndividualLoop (preU ++ u₀ :: postU) = .ok (log, outs) ∧
      outs.length = (preU ++ u₀ :: postU).length - 1 ∧
      log.length = (preU ++ u₀ :: postU).length ∧
      (log.filter (fun t => !(t.2.2 == ""))).length = 1 ∧
      (u₀.1, u₀.2.1, getError e') ∈ log) := by
  constructor
  · obtain ⟨h1, h2, h3⟩ := runCombinedSiteLoop_one_fail hfail pre post hok
    refine ⟨?_, h1, ?_, getError_ne_empty e⟩
    · rw [h2]
      simp
    · rw [runCombinedSiteResults]
      have := mem_map_of_mem (fun p : String × String => (site, p.1, p.2)) h3
      simpa using this
  · have hp₀ : u₀.2.2.paths = .ok () := hpaths u₀ (mem_append_right _ (mem_cons_self _ _))
    obtain ⟨outs, hloop, hlen⟩ := runIndividualLoop_one_fail hp₀ hbodyfail preU postU
      (by
        intro u hu
        apply hpaths
        rcases mem_append.1 hu with h | h
        · exact mem_append_left _ h
        · exact mem_append_right _ (mem_cons_of_mem _ h))
      hbodyok
    refine ⟨_, outs, hloop, by simp only [length_append, length_cons]; omega,
      by simp, ?_, ?_⟩
    · rw [filter_append, filter_cons]
      have hpre : (preU.map (fun u => (u.1, u.2.1, ""))).filter
          (fun t => !(t.2.2 == "")) = [] := by
        rw [filter_eq_nil_iff]
        intro t ht
        rcases mem_map.1 ht with ⟨u, hu, rfl⟩
        simp
      have hpost : (postU.map (fun u => (u.1, u.2.1, ""))).filter
          (fun t => !(t.2.2 == "")) = [] := by
        rw [filter_eq_nil_iff]
        intro t ht
        rcases mem_map.1 ht with ⟨u, hu, rfl⟩
        simp
      have hne : ((u₀.1, u₀.2.1, getError e').2.2 == "") = false :=
        beq_eq_false_iff_ne.2 (getError_ne_empty e')
      rw [hpre, hpost]
      simp [hne]
    · exact mem_append_right _ (mem_cons_self _ _)

/-- The exception of the batch-isolation witness. -/
def c7err : PyError :=
  ⟨"ValueError", "No data retained", [("agage_archive/io.py", 1186), ("numpy/core.py", 5)]⟩

/-- Process function of the combined-runner half of the witness: only
"cfc-11" fails. -/
def c7process : String → Except PyError (List Row) := fun sp =>
  if sp = "cfc-11" then .error c7err else .ok []

/-- The unit whose try-wrapped body fails in the amended-claim witness. -/
def c7bodyFailUnit : IndividualUnit := ⟨.ok (), .error c7err⟩

theorem c7_amended_batch_isolation_witness :
    ((runCombinedSiteLoop c7process (["ch4"] ++ "cfc-11" :: ["n2o"])).2.length =
        (["ch4"] ++ "cfc-11" :: ["n2o"]).length - 1 ∧
      (runCombinedSiteLoop c7process (["ch4"] ++ "cfc-11" :: ["n2o"])).1.filter
          (fun s => !(s == "")) = [getError c7err] ∧
      ("CGO", "cfc-11", getError c7err) ∈
        runCombinedSiteResults "CGO" c7process (["ch4"] ++ "cfc-11" :: ["n2o"]) ∧
      getError c7err ≠ "") ∧
    (∃ log outs,
      runIndividualLoop ([("CGO", "ch4", c7goodUnit)] ++
        ("MHD", "cfc-11", c7bodyFailUnit) :: [("CGO", "n2o", c7goodUnit)]) =
          .ok (log, outs) ∧
      outs.length = ([("CGO", "ch4", c7goodUnit)] ++
        ("MHD", "cfc-11", c7bodyFailUnit) :: [("CGO", "n2o", c7goodUnit)]).length - 1 ∧
      log.length = ([("CGO", "ch4", c7goodUnit)] ++
        ("MHD", "cfc-11", c7bodyFailUnit) :: [("CGO", "n2o", c7goodUnit)]).length ∧
      (log.filter (fun t => !(t.2.2 == ""))).length = 1 ∧
      ("MHD", "cfc-11", getError c7err) ∈ log) :=
  c7_amended_batch_isolation "CGO" c7process ["ch4"] ["n2o"] "cfc-11" c7err
    (by
      intro sp hsp
      refine ⟨[], ?_⟩
      simp only [cons_append, nil_append, mem_cons, mem_singleton, not_mem_nil,
        or_false] at hsp
      rcases hsp with rfl | rfl
      · rfl
      · rfl)
    rfl
    [("CGO", "ch4", c7goodUnit)] [("CGO", "n2o", c7goodUnit)]
    ("MHD", "cfc-11", c7bodyFailUnit) c7err
    (by
      intro u hu
      simp only [cons_append, nil_append, mem_cons, not_mem_nil, or_false] at hu
      rcases hu with rfl | rfl | rfl
      · rfl
      · rfl
      · rfl)
    (by
      intro u hu
      refine ⟨[], ?_⟩
      simp only [cons_append, nil_append, mem_cons, not_mem_nil, or_false] at hu
      rcases hu with rfl | rfl
      · rfl
      · rfl)
    rfl

/-! ### The instrument-number registry (`definitions.py`) -/

/-- Lexicographic code-point comparison of character lists, as Python's `<=`
on strings. -/
def charListLe : List Char → List Char → Bool
  | [], _ => true
  | _ :: _, [] => false
  | a :: as, b :: bs => if a = b then charListLe as bs else decide (a < b)

/-- Python string `<=`. -/
def strLe (a b : String) : Bool := charListLe a.toList b.toList

/-- Insertion into a sorted list of strings. -/
def insertStr (x : String) : List String → List String
  | [] => [x]
  | y :: rest => if strLe x y then x :: y :: rest else y :: insertStr x rest

/-- Python `sorted` on a list of strings, as insertion sort. -/
def sortStrings : List String → List String
  | [] => []
  | x :: rest => insertStr x (sortStrings rest)

lemma charListLe_total : ∀ (a b : List Char), charListLe a b = true ∨ charListLe b a = true
  | [], _ => Or.inl rfl
  | _ :: _, [] => Or.inr rfl
  | a :: as, b :: bs => by
    by_cases hab : a = b
    · subst hab
      rcases charListLe_total as bs with h | h
      · exact Or.inl (by rw [charListLe, if_pos rfl]; exact h)
      · exact Or.inr (by rw [charListLe, if_pos rfl]; exact h)
    · rcases lt_or_gt_of_ne hab with h | h
      · exact Or.inl (by rw [charListLe, if_neg hab]; simpa using h)
      · exact Or.inr (by rw [charListLe, if_neg (Ne.symm hab)]; simpa using h)

lemma charListLe_antisymm :
    ∀ {a b : List Char}, charListLe a b = true → charListLe b a = true → a = b
  | [], [], _, _ => rfl
  | [], _ :: _, _, h2 => by simp [charListLe] at h2
  | _ :: _, [], h1, _ => by simp [charListLe] at h1
  | a :: as, b :: bs, h1, h2 => by
    by_cases hab : a = b
    · subst hab
      rw [charListLe, if_pos rfl] at h1 h2
      rw [charListLe_antisymm h1 h2]
    · rw [charListLe, if_neg hab] at h1
      rw [charListLe, if_neg (Ne.symm hab)] at h2
      simp only [decide_eq_true_eq] at h1 h2
      exact absurd (lt_trans h1 h2) (lt_irrefl a)

lemma charListLe_trans :
    ∀ {a b c : List Char}, charListLe a b = true → charListLe b c = true →
      charListLe a c = true
  | [], _, _, _, _ => rfl
  | _ :: _, [], _, h1, _ => by simp [charListLe] at h1
  | _ :: _, _ :: _, [], _, h2 => by simp [charListLe] at h2
  | a :: as, b :: bs, c :: cs, h1, h2 => by
    by_cases hab : a = b
    · subst hab
      rw [charListLe, if_pos rfl] at h1
      by_cases hbc : a = c
      · subst hbc
        rw [charListLe, if_pos rfl] at h2 ⊢
        exact charListLe_trans h1 h2
      · rw [charListLe, if_neg hbc] at h2 ⊢
        exact h2
    · rw [charListLe, if_neg hab] at h1
      simp only [decide_eq_true_eq] at h1
      by_cases hbc : b = c
      · subst hbc
        rw [charListLe, if_neg hab]
        simpa using h1
      · rw [charListLe, if_neg hbc] at h2
        simp only [decide_eq_true_eq] at h2
        have hac : a < c := lt_trans h1 h2
        rw [charListLe, if_neg (ne_of_lt hac)]
        simpa using hac

lemma strLe_total (a b : String) : strLe a b = true ∨ strLe b a = true :=
  charListLe_total a.toList b.toList

lemma strLe_antisymm {a b : String} (h1 : strLe a b = true) (h2 : strLe b a = true) :
    a = b := by
  have := charListLe_antisymm h1 h2
  cases a
  cases b
  exact congrArg String.mk (by simpa [String.toList] using this)

lemma strLe_trans {a b c : String} (h1 : strLe a b = true) (h2 : strLe b c = true) :
    strLe a c = true :=
  charListLe_trans h1 h2

lemma insertStr_perm (x : String) : ∀ (l : List String), (insertStr x l).Perm (x :: l)
  | [] => Perm.refl _
  | y :: rest => by
    rw [insertStr]
    split
    · exact Perm.refl _
    · exact ((insertStr_perm x rest).cons y).trans (Perm.swap x y rest)

lemma sortStrings_perm : ∀ (l : List String), (sortStrings l).Perm l
  | [] => Perm.refl _
  | x :: rest =>
    (insertStr_perm x (sortStrings rest)).trans ((sortStrings_perm rest).cons x)

lemma mem_insertStr {x y : String} :
    ∀ {l : List String}, y ∈ insertStr x l → y = x ∨ y ∈ l := by
  intro l hy
  have := (insertStr_perm x l).subset hy
  simpa using this

lemma insertStr_pairwise (x : String) :
    ∀ {l : List String}, l.Pairwise (fun a b => strLe a b = true) →
      (insertStr x l).Pairwise (fun a b => strLe a b = true)
  | [], _ => by simp [insertStr]
  | y :: rest, h => by
    rw [pairwise_cons] at h
    obtain ⟨hy, hrest⟩ := h
    rw [insertStr]
    split
    · next hle =>
      rw [pairwise_cons]
      refine ⟨?_, by rw [pairwise_cons]; exact ⟨hy, hrest⟩⟩
      intro t ht
      rcases mem_cons.1 ht with rfl | ht'
      · exact hle
      · exact strLe_trans hle (hy t ht')
    · next hgt =>
      rw [pairwise_cons]
      refine ⟨?_, insertStr_pairwise x hrest⟩
      intro t ht
      rcases mem_insertStr ht with rfl | ht'
      · rcases strLe_total y t with h | h
        · exact h
        · exact absurd h hgt
      · exact hy t ht'

lemma sortStrings_pairwise :
    ∀ (l : List String), (sortStrings l).Pairwise (fun a b => strLe a b = true)
  | [] => by simp [sortStrings]
  | x :: rest => insertStr_pairwise x (sortStrings_pairwise rest)

lemma sortStrings_eq_of_perm {l₁ l₂ : List String} (h : l₁.Perm l₂) :
    sortStrings l₁ = sortStrings l₂ := by
  have hperm : (sortStrings l₁).Perm (sortStrings l₂) :=
    (sortStrings_perm l₁).trans (h.trans (sortStrings_perm l₂).symm)
  exact @eq_of_perm_of_sorted _ _ ⟨fun _ _ h1 h2 => strLe_antisymm h1 h2⟩ _ _
    hperm (sortStrings_pairwise l₁) (sortStrings_pairwise l₂)

/-- Python dict assignment `d[k] = v`: overwrite in place when the key
exists, else append at the end (dict preserves insertion order). -/
def dictInsert (d : List (String × Int)) (k : String) (v : Int) : List (String × Int) :=
  if d.any (fun kv => kv.1 = k) then
    d.map (fun kv => if kv.1 = k then (k, v) else kv)
  else d ++ [(k, v)]

/-- Python dict membership / subscript: the value of the first (unique)
entry with the given key. -/
def dictLookup (d : List (String × Int)) (k : String) : Option Int :=
  (d.find? (fun kv => decide (kv.1 = k))).map (fun kv => kv.2)

/-- `f.split("_")[-1].split(".")[0]` of definitions.py line 97: the
instrument identifier parsed from a release-schedule file name. -/
def parseInstrumentId (f : String) : String :=
  ⟨(splitOnChar '.' ((splitOnChar '_' f.toList).getLastD [])).headD []⟩

/-- `define_instrument_number` of definitions.py lines 76-100, abstracted
over the file listing returned by the external `data_file_list`
collaborator: start from UNDEFINED = -1, fail if there are no files, then
assign an increasing counter to the identifier parsed from each file name,
iterating over the sorted file names. -/
def defineInstrumentNumber (files : List String) : Except String (List (String × Int)) :=
  if files.length = 0 then
    .error "No data release schedule files found for the specified network."
  else
    .ok ((sortStrings files).enum.foldl
      (fun d p => dictInsert d (parseInstrumentId p.2) (Int.ofNat p.1))
      [("UNDEFINED", -1)])

/-- `get_instrument_number` of definitions.py lines 142-176: build the
registry, reject names of length ≤ 1, then try an exact dictionary match,
else scan the registry in insertion order for the first key contained in the
given name (`if k in instrument`); the sentinel -999 left untouched by both
phases becomes a KeyError. -/
def getInstrumentNumberAux (reg : List (String × Int)) (instrument : String) :
    Except String Int :=
  if instrument.length ≤ 1 then
    .error "instrument cannot be a single character or empty string"
  else
    match dictLookup reg instrument with
    | some v => if v = -999 then .error "Could not find instrument number" else .ok v
    | none =>
      match reg.find? (fun kv => strHasSub instrument kv.1) with
      | some kv =>
        if kv.2 = -999 then .error "Could not find instrument number" else .ok kv.2
      | none => .error "Could not find instrument number"

def getInstrumentNumber (files : List String) (instrument : String) : Except String Int :=
  match defineInstrumentNumber files with
  | .error e => .error e
  | .ok reg => getInstrumentNumberAux reg instrument

lemma foldl_dictInsert_append :
    ∀ (l : List (Nat × String)) (acc : List (String × Int)),
      (l.map (fun p => parseInstrumentId p.2)).Nodup →
      (∀ p ∈ l, ∀ kv ∈ acc, kv.1 ≠ parseInstrumentId p.2) →
      l.foldl (fun d p => dictInsert d (parseInstrumentId p.2) (Int.ofNat p.1)) acc =
        acc ++ l.map (fun p => (parseInstrumentId p.2, Int.ofNat p.1))
  | [], acc, _, _ => by simp
  | p :: rest, acc, hnodup, hdisj => by
    rw [map_cons, nodup_cons] at hnodup
    have hnew : (acc.any (fun kv => kv.1 = parseInstrumentId p.2)) = false := by
      rw [any_eq_false]
      intro kv hkv
      simpa using hdisj p (mem_cons_self _ _) kv hkv
    rw [foldl_cons, dictInsert, if_neg (by rw [hnew]; simp)]
    rw [foldl_dictInsert_append rest (acc ++ [(parseInstrumentId p.2, Int.ofNat p.1)])
      hnodup.2 ?_]
    · simp
    · intro q hq kv hkv
      rcases mem_append.1 hkv with hkv' | hkv'
      · exact hdisj q (mem_cons_of_mem _ hq) kv hkv'
      · rw [mem_singleton.1 hkv']
        intro he
        have he' : parseInstrumentId p.2 = parseInstrumentId q.2 := he
        exact hnodup.1 (by rw [he']; exact mem_map_of_mem (fun p => parseInstrumentId p.2) hq)

lemma find?_eq_of_nodup_keys :
    ∀ {L : List (String × Int)}, (L.map Prod.fst).Nodup →
      ∀ {kv : String × Int}, kv ∈ L →
        L.find? (fun x => decide (x.1 = kv.1)) = some kv
  | [], _, kv, hkv => absurd hkv (not_mem_nil _)
  | a :: L, h, kv, hkv => by
    rw [map_cons, nodup_cons] at h
    rcases mem_cons.1 hkv with rfl | hkv'
    · rw [find?_cons_of_pos _ (by simp)]
    · have hne : a.1 ≠ kv.1 := fun e => h.1 (e ▸ mem_map_of_mem Prod.fst hkv')
      rw [find?_cons_of_neg _ (by simpa using hne)]
      exact find?_eq_of_nodup_keys h.2 hkv'

lemma enum_map_parse (l : List String) :
    l.enum.map (fun p => parseInstrumentId p.2) = l.map parseInstrumentId := by
  conv_rhs => rw [← enum_map_snd l, map_map]
  rfl

lemma defineInstrumentNumber_ok {files : List String} (hne : files ≠ [])
    (hnodup : ((sortStrings files).map parseInstrumentId).Nodup)
    (hundef : "UNDEFINED" ∉ (sortStrings files).map parseInstrumentId) :
    defineInstrumentNumber files =
      .ok (("UNDEFINED", -1) ::
        (sortStrings files).enum.map (fun p => (parseInstrumentId p.2, Int.ofNat p.1))) := by
  rw [defineInstrumentNumber, if_neg (by simpa using hne)]
  congr 1
  rw [foldl_dictInsert_append]
  · simp
  · rw [enum_map_parse]
    exact hnodup
  · intro p hp kv hkv
    rw [mem_singleton.1 hkv]
    intro he
    have he' : "UNDEFINED" = parseInstrumentId p.2 := he
    apply hundef
    rw [he']
    exact mem_map_of_mem parseInstrumentId (List.snd_mem_of_mem_enum hp)

lemma registry_keys_eq (files : List String) :
    ((("UNDEFINED", (-1 : Int)) ::
        (sortStrings files).enum.map
          (fun p => (parseInstrumentId p.2, Int.ofNat p.1))).map Prod.fst) =
      "UNDEFINED" :: (sortStrings files).map parseInstrumentId := by
  rw [map_cons, map_map, ← enum_map_parse]
  rfl

/-- Claim C8: for a nonempty release-schedule file listing whose parsed
per-instrument identifiers are pairwise distinct (and distinct from the
reserved name), the registry maps "UNDEFINED" to -1 and assigns the
identifier of the i-th file, in sorted file-name order, the code i — i.e.
non-negative codes consecutively from 0 — and rebuilding from any reordering
of the same file set yields exactly the same mapping. -/
theorem c8_instrument_registry (files : List String)
    (hne : files ≠ [])
    (hnodup : ((sortStrings files).map parseInstrumentId).Nodup)
    (hundef : "UNDEFINED" ∉ (sortStrings files).map parseInstrumentId) :
    defineInstrumentNumber files =
      .ok (("UNDEFINED", -1) ::
        (sortStrings files).enum.map (fun p => (parseInstrumentId p.2, Int.ofNat p.1))) ∧
    (∀ reg, defineInstrumentNumber files = .ok reg →
      dictLookup reg "UNDEFINED" = some (-1) ∧
      ∀ (i : Nat) (h : i < (sortStrings files).length),
        dictLookup reg (parseInstrumentId ((sortStrings files).get ⟨i, h⟩)) =
          some (Int.ofNat i)) ∧
    (∀ files', files.Perm files' →
      defineInstrumentNumber files = defineInstrumentNumber files') := by
  have hok := defineInstrumentNumber_ok hne hnodup hundef
  refine ⟨hok, ?_, ?_⟩
  · intro reg hreg
    rw [hok] at hreg
    have hreg' : reg = ("UNDEFINED", -1) ::
        (sortStrings files).enum.map (fun p => (parseInstrumentId p.2, Int.ofNat p.1)) := by
      cases hreg
      rfl
    subst hreg'
    constructor
    · rw [dictLookup, find?_cons_of_pos _ (by simp)]
      rfl
    · intro i h
      have hget : parseInstrumentId ((sortStrings files).get ⟨i, h⟩) ∈
          (sortStrings files).map parseInstrumentId :=
        mem_map_of_mem parseInstrumentId (get_mem _ _ h)
      have hne' : ("UNDEFINED" : String) ≠
          parseInstrumentId ((sortStrings files).get ⟨i, h⟩) := by
        intro he
        exact hundef (he ▸ hget)
      rw [dictLookup, find?_cons_of_neg _ (by simpa using hne')]
      have hkeys :
          (((sortStrings files).enum.map
            (fun p => (parseInstrumentId p.2, Int.ofNat p.1))).map Prod.fst).Nodup := by
        rw [map_map]
        have : ((sortStrings files).enum.map (fun p => parseInstrumentId p.2)).Nodup := by
          rw [enum_map_parse]
          exact hnodup
        exact this
      have hmem : (parseInstrumentId ((sortStrings files).get ⟨i, h⟩), Int.ofNat i) ∈
          (sortStrings files).enum.map (fun p => (parseInstrumentId p.2, Int.ofNat p.1)) := by
        have hlen : i < (sortStrings files).enum.length := by
          simpa [enum_length] using h
        have hmem' : ((sortStrings files).enum.get ⟨i, hlen⟩) ∈ (sortStrings files).enum :=
          get_mem _ _ hlen
        have hval : (sortStrings files).enum.get ⟨i, hlen⟩ =
            (i, (sortStrings files).get ⟨i, h⟩) := by
          rw [get_eq_getElem, get_eq_getElem, getElem_enum]
        rw [hval] at hmem'
        exact mem_map_of_mem _ hmem'
      have := find?_eq_of_nodup_keys hkeys hmem
      rw [this]
      rfl
  · intro files' hperm
    have hl : files.length = files'.length := hperm.length_eq
    rw [defineInstrumentNumber, defineInstrumentNumber, hl, sortStrings_eq_of_perm hperm]

/-- Release-schedule listing of the registry witness, deliberately unsorted:
sorted order is AGAGE before ALE. -/
def c8files : List String :=
  ["data_release_schedule_ALE.csv", "data_release_schedule_AGAGE.csv"]

theorem c8_instrument_registry_witness :
    (defineInstrumentNumber c8files =
      .ok (("UNDEFINED", -1) ::
        (sortStrings c8files).enum.map (fun p => (parseInstrumentId p.2, Int.ofNat p.1)))) ∧
    defineInstrumentNumber c8files = defineInstrumentNumber c8files.reverse :=
  ⟨(c8_instrument_registry c8files (by decide) (by decide) (by decide)).1,
    (c8_instrument_registry c8files (by decide) (by decide) (by decide)).2.2
      c8files.reverse (by decide)⟩

lemma dictInsert_values_ge {d : List (String × Int)} {k : String} {v : Int}
    (hd : ∀ kv ∈ d, -1 ≤ kv.2) (hv : -1 ≤ v) :
    ∀ kv ∈ dictInsert d k v, -1 ≤ kv.2 := by
  intro kv hkv
  rw [dictInsert] at hkv
  split at hkv
  · rcases mem_map.1 hkv with ⟨x, hx, rfl⟩
    by_cases hxk : x.1 = k
    · simpa [hxk] using hv
    · simpa [hxk] using hd x hx
  · rcases mem_append.1 hkv with h | h
    · exact hd kv h
    · rw [mem_singleton.1 h]
      exact hv

lemma foldl_dictInsert_values :
    ∀ (l : List (Nat × String)) (acc : List (String × Int)),
      (∀ kv ∈ acc, -1 ≤ kv.2) →
      ∀ kv ∈ l.foldl (fun d p => dictInsert d (parseInstrumentId p.2) (Int.ofNat p.1)) acc,
        -1 ≤ kv.2
  | [], _, h => h
  | p :: rest, acc, h => by
    rw [foldl_cons]
    exact foldl_dictInsert_values rest _ (dictInsert_values_ge h
      (le_trans (by omega) (Int.ofNat_nonneg p.1)))

lemma defineInstrumentNumber_values {files : List String} {reg : List (String × Int)}
    (h : defineInstrumentNumber files = .ok reg) :
    ∀ kv ∈ reg, -1 ≤ kv.2 := by
  rw [defineInstrumentNumber] at h
  split at h
  · cases h
  · have hreg : reg = (sortStrings files).enum.foldl
        (fun d p => dictInsert d (parseInstrumentId p.2) (Int.ofNat p.1))
        [("UNDEFINED", -1)] := by
      cases h
      rfl
    subst hreg
    exact foldl_dictInsert_values _ _ (by
      intro kv hkv
      rw [mem_singleton.1 hkv])

/-- Claim C9: instrument-code lookup is a two-phase match.  For an instrument
name of length greater than one: if the name is a registry key, its code is
returned; otherwise the code of the first registry key, in registration
(insertion) order, that occurs as a substring of the name is returned; and if
neither phase matches, the lookup fails — a code is never returned for an
unknown instrument. -/
theorem c9_lookup_two_phase (files : List String) (instrument : String)
    (reg : List (String × Int))
    (hreg : defineInstrumentNumber files = .ok reg)
    (hlen : 1 < instrument.length) :
    (∀ v, dictLookup reg instrument = some v →
      getInstrumentNumber files instrument = .ok v) ∧
    (∀ kv, dictLookup reg instrument = none →
      reg.find? (fun kv => strHasSub instrument kv.1) = some kv →
      getInstrumentNumber files instrument = .ok kv.2) ∧
    (dictLookup reg instrument = none →
      reg.find? (fun kv => strHasSub instrument kv.1) = none →
      getInstrumentNumber files instrument =
        .error "Could not find instrument number") := by
  have hvals := defineInstrumentNumber_values hreg
  have hnotlen : ¬ instrument.length ≤ 1 := by omega
  refine ⟨?_, ?_, ?_⟩
  · intro v hv
    obtain ⟨kv, hfind⟩ :
        ∃ kv, reg.find? (fun kv => decide (kv.1 = instrument)) = some kv := by
      rw [dictLookup] at hv
      cases hf : reg.find? (fun kv => decide (kv.1 = instrument)) with
      | none => rw [hf] at hv; cases hv
      | some kv => exact ⟨kv, rfl⟩
    have hkv2 : kv.2 = v := by
      rw [dictLookup, hfind] at hv
      simpa using hv
    have hge : -1 ≤ kv.2 := hvals kv (mem_of_find?_eq_some hfind)
    rw [getInstrumentNumber, hreg]
    show getInstrumentNumberAux reg instrument = .ok v
    rw [getInstrumentNumberAux, if_neg hnotlen, hv]
    show (if v = -999 then Except.error "Could not find instrument number"
      else Except.ok v) = Except.ok v
    rw [if_neg (by omega)]
  · intro kv hnone hfind
    have hge : -1 ≤ kv.2 := hvals kv (mem_of_find?_eq_some hfind)
    rw [getInstrumentNumber, hreg]
    show getInstrumentNumberAux reg instrument = .ok kv.2
    rw [getInstrumentNumberAux, if_neg hnotlen, hnone]
    show (match reg.find? (fun kv => strHasSub instrument kv.1) with
      | some kv =>
        if kv.2 = -999 then Except.error "Could not find instrument number"
        else Except.ok kv.2
      | none => Except.error "Could not find instrument number") = Except.ok kv.2
    rw [hfind]
    show (if kv.2 = -999 then Except.error "Could not find instrument number"
      else Except.ok kv.2) = Except.ok kv.2
    rw [if_neg (by omega)]
  · intro hnone hfind
    rw [getInstrumentNumber, hreg]
    show getInstrumentNumberAux reg instrument = .error "Could not find instrument number"
    rw [getInstrumentNumberAux, if_neg hnotlen, hnone]
    show (match reg.find? (fun kv => strHasSub instrument kv.1) with
      | some kv =>
        if kv.2 = -999 then Except.error "Could not find instrument number"
        else Except.ok kv.2
      | none => Except.error "Could not find instrument number") =
        Except.error "Could not find instrument number"
    rw [hfind]

/-- The registry built from `c8files`: UNDEFINED plus AGAGE and ALE in
sorted file order. -/
def c9reg : List (String × Int) := [("UNDEFINED", -1), ("AGAGE", 0), ("ALE", 1)]

theorem c9_lookup_two_phase_witness :
    getInstrumentNumber c8files "AGAGE" = .ok 0 ∧
    getInstrumentNumber c8files "ALE-gcmd" = .ok 1 :=
  ⟨(c9_lookup_two_phase c8files "AGAGE" c9reg (by rfl) (by decide)).1 0 (by rfl),
    (c9_lookup_two_phase c8files "ALE-gcmd" c9reg (by rfl) (by decide)).2.1
      ("ALE", 1) (by rfl) (by rfl)⟩
